import Mathlib

/-!
Shallow embedding of the Nurikabe solver from `src/sudoku/stl/nurikabe.cpp`,
together with proofs about the claims of its specification.

Modelling conventions:
* Machine `int` values are modelled as `ℤ` (no overflow is modelled; the solver
  only handles small grids, and `stoi` range limits are outside the model).
* Cell states are the raw `int` encoding of the source: `UNKNOWN = -3`,
  `WHITE = -2`, `BLACK = -1`, and a numbered cell is its positive number.
* `std::set<std::pair<int,int>>` is modelled as a lexicographically sorted,
  duplicate-free `List Coord` maintained by `sinsert`; iteration order of such a
  set in the source is its sorted order, which the list order reproduces.
* `std::shared_ptr<Region>` identity is modelled by a natural-number region id;
  `m_regions` becomes an association list from ids to `Region` values and each
  cell stores the id of its region (`owner`).  The iteration order of the
  source's `set<shared_ptr<Region>>` is unspecified (pointer order); it is
  modelled by the list order of the association list.
* The while-loops of `Grid::unreachable` and `Grid::confined` are modelled with
  a fuel parameter.  The fuel supplied by the wrappers is larger than the
  number of iterations either loop can perform (each BFS pop corresponds to a
  distinct discovered cell, and each confinement iteration pops one OPEN flag,
  of which only finitely many are ever created), so exhaustion is unreachable;
  on exhaustion the functions return the same value the source would return if
  the loop stopped (queue empty / no OPEN cell).
* The HTML output log (`m_output`, `print`) and timing are not modelled: they
  never influence the solver state.  `verbose` parameters are dropped for the
  same reason.
* The pseudorandom guessing order of `Grid::guessing_order` is produced by
  `std::random_shuffle` with an `mt19937`; the shuffle's behaviour is
  unspecified by the C++ standard (it depends on the standard library
  implementation), so the guessing order is a parameter of the model rather
  than a computed value.
* `throw logic_error` sites that the solver itself documents as unreachable
  (marking with a non-WHITE/BLACK state, a `Region` constructed from an
  UNKNOWN state, two numbered regions adjacent inside `Grid::confined`) are
  modelled as returning the current state unchanged; no claim exercises them.
-/

namespace Nurikabe

/-- Coordinates `(x, y)` of a cell, exactly the `std::pair<int,int>` of the source. -/
abbrev Coord := ℤ × ℤ

/-- Cell state encoding from `enum State : int` in the source. -/
def UNKNOWN : ℤ := -3

/-- Cell state `WHITE` from the source encoding. -/
def WHITE : ℤ := -2

/-- Cell state `BLACK` from the source encoding. -/
def BLACK : ℤ := -1

/-- Solver status, `Grid::SitRep` in the source. -/
inductive SitRep where
  | CONTRADICTION_FOUND
  | SOLUTION_FOUND
  | KEEP_GOING
  | CANNOT_PROCEED
  deriving DecidableEq, Repr

export SitRep (CONTRADICTION_FOUND SOLUTION_FOUND KEEP_GOING CANNOT_PROCEED)

/-- Strict lexicographic order on coordinates: the `operator<` of `std::pair<int,int>`. -/
def coordLt (p q : Coord) : Prop := p.1 < q.1 ∨ (p.1 = q.1 ∧ p.2 < q.2)

instance : DecidablePred (fun pq : Coord × Coord => coordLt pq.1 pq.2) := by
  intro pq; unfold coordLt; infer_instance

instance (p q : Coord) : Decidable (coordLt p q) := by
  unfold coordLt; infer_instance

/-- Sorted-insert into the list modelling a `std::set<std::pair<int,int>>`. -/
def sinsert (p : Coord) : List Coord → List Coord
  | [] => [p]
  | q :: t => if p = q then q :: t else if coordLt p q then p :: q :: t else q :: sinsert p t

/-- Erase an element from a set-as-sorted-list (`std::set::erase`). -/
def serase (p : Coord) (l : List Coord) : List Coord :=
  l.filter (fun q => decide (¬ q = p))

/-- Range `[0, n)` of integers, for modelling `for (int i = 0; i < n; ++i)`. -/
def intRange (n : ℤ) : List ℤ := (List.range n.toNat).map (fun k : ℕ => (k : ℤ))

/-- Coordinates in the order of an `x`-outer, `y`-inner double loop. -/
def colMajor (w h : ℤ) : List Coord :=
  (intRange w).bind (fun x => (intRange h).map (fun y => (x, y)))

/-- Coordinates ordered by increasing linear index `x + y * w`, the order in which
`Grid::confined` scans its flag vector. -/
def rowMajor (w h : ℤ) : List Coord :=
  (intRange h).bind (fun y => (intRange w).map (fun x => (x, y)))

/-- Association-list lookup by region id (`shared_ptr` identity in the source). -/
def alookup {α : Type} (i : ℕ) : List (ℕ × α) → Option α
  | [] => none
  | e :: t => if e.1 = i then some e.2 else alookup i t

/-- A region (`Grid::Region`): its state, occupied coordinates, and surrounding
unknown cells.  `state` is never `UNKNOWN` (the source constructor throws). -/
structure Region where
  state : ℤ
  coords : List Coord
  unknowns : List Coord
  deriving DecidableEq, Repr

/-- Region size, `Region::size()`. -/
def Region.size (r : Region) : ℤ := r.coords.length

/-- Region membership test, `Region::contains(x, y)`. -/
abbrev Region.contains (r : Region) (x y : ℤ) : Prop := (x, y) ∈ r.coords

/-- Remove a now-known cell from a region's liberties, `Region::unk_erase`. -/
def Region.unk_erase (r : Region) (x y : ℤ) : Region :=
  { r with unknowns := serase (x, y) r.unknowns }

/-- The confinement cache `cache_map_t`: region id to the unknown cells consumed
during that region's verboten-free confinement run. -/
abbrev Cache := List (ℕ × List Coord)

/-- The grid (`class Grid`).  `cells` is total over coordinates but only
meaningful on `[0, width) × [0, height)`; `owner` gives the region id stored in
`m_cells[x][y].second`; `regions` is `m_regions`; `nextId` generates fresh
region identities (the analogue of allocating a new `shared_ptr`). -/
structure Grid where
  width : ℤ
  height : ℤ
  total_black : ℤ
  cells : Coord → ℤ
  owner : Coord → Option ℕ
  regions : List (ℕ × Region)
  sitrep : SitRep
  nextId : ℕ

/-- Bounds test `Grid::valid(x, y)`. -/
abbrev Grid.valid (g : Grid) (x y : ℤ) : Prop :=
  0 ≤ x ∧ x < g.width ∧ 0 ≤ y ∧ y < g.height

/-- The up-to-four valid 4-neighbours, in the visit order of
`Grid::for_valid_neighbors`: left, right, up, down. -/
def Grid.validNeighbors (g : Grid) (x y : ℤ) : List Coord :=
  (if 0 < x then [(x - 1, y)] else []) ++
  (if x + 1 < g.width then [(x + 1, y)] else []) ++
  (if 0 < y then [(x, y - 1)] else []) ++
  (if y + 1 < g.height then [(x, y + 1)] else [])

/-- Insert the valid unknown neighbours of `(x, y)` into a set,
`Grid::insert_valid_unknown_neighbors`. -/
def Grid.insert_valid_unknown_neighbors (g : Grid) (s : List Coord) (x y : ℤ) : List Coord :=
  (g.validNeighbors x y).foldl (fun acc q => if g.cells q = UNKNOWN then sinsert q acc else acc) s

/-- The region of a cell together with its id: `Grid::region(x, y)` dereferenced. -/
def Grid.regionAt (g : Grid) (p : Coord) : Option (ℕ × Region) :=
  match g.owner p with
  | none => none
  | some j =>
    match alookup j g.regions with
    | some r => some (j, r)
    | none => none

/-- Record a contradiction in the grid status (the `uh_oh` lambda /
`m_sitrep = CONTRADICTION_FOUND` assignments of the source). -/
def Grid.set_contradiction (g : Grid) : Grid := { g with sitrep := CONTRADICTION_FOUND }

/-- `Grid::add_region(x, y)`: make a fresh singleton region from the cell's
current state, with the valid unknown neighbours as liberties. -/
def Grid.add_region (g : Grid) (x y : ℤ) : Grid :=
  let unknowns := g.insert_valid_unknown_neighbors [] x y
  let r : Region := { state := g.cells (x, y), coords := [(x, y)], unknowns := unknowns }
  { g with
    owner := fun q => if q = (x, y) then some g.nextId else g.owner q,
    regions := g.regions ++ [(g.nextId, r)],
    nextId := g.nextId + 1 }

/-- Merge the secondary region `(si, s)` into the primary `(pi, p)`
(the tail of `Grid::fuse_regions` after the swaps). -/
def Grid.fuseMerge (g : Grid) (pi_ : ℕ) (p : Region) (si : ℕ) (s : Region) : Grid :=
  let merged : Region :=
    { state := p.state,
      coords := s.coords.foldl (fun acc q => sinsert q acc) p.coords,
      unknowns := s.unknowns.foldl (fun acc q => sinsert q acc) p.unknowns }
  { g with
    regions := (g.regions.filter (fun e => decide (¬ e.1 = si))).map
      (fun e => if e.1 = pi_ then (pi_, merged) else e),
    owner := fun q => if q ∈ s.coords then some pi_ else g.owner q }

/-- `Grid::fuse_regions(r1, r2)`, with regions passed by id. -/
def Grid.fuse_regions (g : Grid) (o1 o2 : Option ℕ) : Grid :=
  match o1, o2 with
  | some i1, some i2 =>
    if i1 = i2 then g
    else
      match alookup i1 g.regions, alookup i2 g.regions with
      | some r1, some r2 =>
        if 0 < r1.state ∧ 0 < r2.state then g.set_contradiction
        else if ¬ ((r1.state = BLACK) ↔ (r2.state = BLACK)) then g
        else if r2.size > r1.size then
          -- after the size swap the primary is r2; swap again if the new
          -- secondary (r1) is numbered
          if 0 < r1.state then g.fuseMerge i1 r1 i2 r2 else g.fuseMerge i2 r2 i1 r1
        else
          if 0 < r2.state then g.fuseMerge i2 r2 i1 r1 else g.fuseMerge i1 r1 i2 r2
      | _, _ => g
  | _, _ => g

/-- `Grid::mark(s, x, y)`: record a deduced colour, then fuse with compatible
neighbouring regions.  Marking an already-known cell records a contradiction
and changes nothing else. -/
def Grid.mark (g : Grid) (s : ℤ) (x y : ℤ) : Grid :=
  if s = WHITE ∨ s = BLACK then
    if g.cells (x, y) = UNKNOWN then
      let g1 : Grid :=
        { g with
          cells := fun q => if q = (x, y) then s else g.cells q,
          regions := g.regions.map (fun e => (e.1, e.2.unk_erase x y)) }
      let g2 := g1.add_region x y
      (g2.validNeighbors x y).foldl
        (fun h nb => h.fuse_regions (h.owner (x, y)) (h.owner nb)) g2
    else g.set_contradiction
  else g

/-- Commit a list of marks of one colour in order (`for ... mark(s, ...)`). -/
def markList (s : ℤ) (g : Grid) (l : List Coord) : Grid :=
  l.foldl (fun h p => h.mark s p.1 p.2) g

/-- `Grid::process`: commit a rule's proposed marks; returns whether anything
was proposed. -/
def Grid.process (g : Grid) (mark_as_black mark_as_white : List Coord) : Bool × Grid :=
  if mark_as_black = [] ∧ mark_as_white = [] then (false, g)
  else (true, markList WHITE (markList BLACK g mark_as_black) mark_as_white)

/-- Number of known cells, `Grid::known()`. -/
def Grid.known (g : Grid) : ℤ :=
  ((colMajor g.width g.height).filter (fun p => decide (¬ g.cells p = UNKNOWN))).length

/-! ## Deduction rules R1–R3 -/

/-- One region's contribution to rule R1's marks. -/
def Grid.completeIslandStep (acc : List Coord) (e : ℕ × Region) : List Coord :=
  if 0 < e.2.state ∧ e.2.size = e.2.state then
    e.2.unknowns.foldl (fun a q => sinsert q a) acc
  else acc

/-- The marks proposed by rule R1 (`Grid::analyze_complete_islands`): every
liberty of a full numbered island must be black. -/
def Grid.completeIslandMarks (g : Grid) : List Coord :=
  g.regions.foldl Grid.completeIslandStep []

/-- Rule R1, `Grid::analyze_complete_islands`. -/
def Grid.analyze_complete_islands (g : Grid) : Bool × Grid :=
  g.process g.completeIslandMarks []

/-- The marks proposed by rule R2 (`Grid::analyze_single_liberties`): a
partial region with exactly one liberty expands into it. -/
def Grid.singleLibertyMarks (g : Grid) : List Coord × List Coord :=
  g.regions.foldl
    (fun acc e =>
      let r := e.2
      if (r.state = BLACK ∧ r.size < g.total_black) ∨ r.state = WHITE ∨
          (0 < r.state ∧ r.size < r.state) then
        match r.unknowns with
        | [u] => if r.state = BLACK then (sinsert u acc.1, acc.2) else (acc.1, sinsert u acc.2)
        | _ => acc
      else acc) ([], [])

/-- Rule R2, `Grid::analyze_single_liberties`. -/
def Grid.analyze_single_liberties (g : Grid) : Bool × Grid :=
  g.process g.singleLibertyMarks.1 g.singleLibertyMarks.2

/-- The far corner of the 2×2 square spanned by two diagonal liberties, as
`Grid::analyze_dual_liberties` chooses it. -/
def farCorner (r : Region) (u1 u2 : Coord) : Coord :=
  if r.contains u1.1 u2.2 then (u2.1, u1.2) else (u1.1, u2.2)

/-- The marks proposed by rule R3 (`Grid::analyze_dual_liberties`): an island
one short of full with exactly two diagonal liberties forces the far corner of
their 2×2 square to be black. -/
def Grid.dualLibertyStep (g : Grid) (acc : List Coord) (e : ℕ × Region) : List Coord :=
  let r := e.2
  if 0 < r.state ∧ r.size = r.state - 1 then
    match r.unknowns with
    | [u1, u2] =>
      if (u1.1 - u2.1).natAbs = 1 ∧ (u1.2 - u2.2).natAbs = 1 then
        if g.cells (farCorner r u1 u2) = UNKNOWN then sinsert (farCorner r u1 u2) acc
        else acc
      else acc
    | _ => acc
  else acc

/-- The marks proposed by rule R3, one region at a time. -/
def Grid.dualLibertyMarks (g : Grid) : List Coord :=
  g.regions.foldl g.dualLibertyStep []

/-- Rule R3, `Grid::analyze_dual_liberties`. -/
def Grid.analyze_dual_liberties (g : Grid) : Bool × Grid :=
  g.process g.dualLibertyMarks []

/-! ## Reachability -/

/-- `Grid::impossibly_big_white_region(n)`: no numbered region could absorb a
white region of `n` cells plus the one-cell bridge. -/
def Grid.impossibly_big_white_region (g : Grid) (n : ℤ) : Bool :=
  g.regions.all (fun e => decide (¬ (0 < e.2.state ∧ e.2.size + n + 1 ≤ e.2.state)))

/-- The distinct regions 4-adjacent to a cell, in first-encounter order
(the `white_regions` / `numbered_regions` collection of `Grid::unreachable`). -/
def Grid.adjacentRegions (g : Grid) (x y : ℤ) : List (ℕ × Region) :=
  (g.validNeighbors x y).foldl
    (fun acc q =>
      match g.regionAt q with
      | some e => if acc.any (fun e2 => decide (e2.1 = e.1)) then acc else acc ++ [e]
      | none => acc) []

/-- The breadth-first loop of `Grid::unreachable`.  The queue holds
`(cell, depth)`; `disc` is the discovered set.  Fuel exhaustion cannot occur
with the wrapper's fuel (each pop corresponds to one enqueue, and each cell is
enqueued at most once because it is inserted into `disc` first). -/
def Grid.unreachableAux (g : Grid) : ℕ → List (Coord × ℤ) → List Coord → Bool
  | _, [], _ => true
  | 0, _ :: _, _ => true
  | fuel + 1, (p, d) :: rest, disc =>
    let adj := g.adjacentRegions p.1 p.2
    let whites := adj.filter (fun e => decide (e.2.state = WHITE))
    let numbereds := adj.filter (fun e => decide (0 < e.2.state))
    let size := ((whites ++ numbereds).map (fun e => e.2.size)).sum
    if 1 < numbereds.length then g.unreachableAux fuel rest disc
    else
      match numbereds with
      | (_, nr) :: _ => if d + size ≤ nr.state then false else g.unreachableAux fuel rest disc
      | [] =>
        if ¬ whites = [] then
          if g.impossibly_big_white_region (d + size) then g.unreachableAux fuel rest disc
          else false
        else
          let step := (g.validNeighbors p.1 p.2).foldl
            (fun (acc : List (Coord × ℤ) × List Coord) q =>
              if g.cells q = UNKNOWN ∧ ¬ q ∈ acc.2 then (acc.1 ++ [(q, d + 1)], sinsert q acc.2)
              else acc)
            (rest, disc)
          g.unreachableAux fuel step.1 step.2

/-- `Grid::unreachable(x_root, y_root, discovered)`: can the unknown cell never
join a white or numbered region? -/
def Grid.unreachable (g : Grid) (x y : ℤ) (discovered : List Coord) : Bool :=
  if g.cells (x, y) = UNKNOWN then
    g.unreachableAux ((g.width * g.height).toNat + 2) [((x, y), 1)] (sinsert (x, y) discovered)
  else false

/-- The marks proposed by rule R4 (`Grid::analyze_unreachable_cells`). -/
def Grid.unreachableMarks (g : Grid) : List Coord :=
  (colMajor g.width g.height).foldl
    (fun acc p => if g.unreachable p.1 p.2 [] then sinsert p acc else acc) []

/-- Rule R4, `Grid::analyze_unreachable_cells`. -/
def Grid.analyze_unreachable_cells (g : Grid) : Bool × Grid :=
  g.process g.unreachableMarks []

/-- The marks proposed by rule R5 (`Grid::analyze_potential_pools`):
whiten cells that would otherwise force a 2×2 black pool. -/
def Grid.potentialPoolMarks (g : Grid) : List Coord :=
  (colMajor (g.width - 1) (g.height - 1)).foldl
    (fun acc p =>
      let x := p.1
      let y := p.2
      let a : List (Coord × ℤ) :=
        [((x, y), g.cells (x, y)), ((x + 1, y), g.cells (x + 1, y)),
         ((x, y + 1), g.cells (x, y + 1)), ((x + 1, y + 1), g.cells (x + 1, y + 1))]
      match a.insertionSort (fun u v => u.2 ≤ v.2) with
      | [b0, b1, b2, b3] =>
        if b0.2 = UNKNOWN ∧ b1.2 = BLACK ∧ b2.2 = BLACK ∧ b3.2 = BLACK then sinsert b0.1 acc
        else
          if b0.2 = UNKNOWN ∧ b1.2 = UNKNOWN ∧ b2.2 = BLACK ∧ b3.2 = BLACK then
            let acc1 := if g.unreachable b1.1.1 b1.1.2 [b0.1] then sinsert b0.1 acc else acc
            if g.unreachable b0.1.1 b0.1.2 [b1.1] then sinsert b1.1 acc1 else acc1
          else acc
      | _ => acc) []

/-- Rule R5, `Grid::analyze_potential_pools`. -/
def Grid.analyze_potential_pools (g : Grid) : Bool × Grid :=
  g.process [] g.potentialPoolMarks

/-! ## Confinement -/

/-- Flags of the confinement simulation (`enum Flag`). -/
inductive Flag where
  | NONE
  | OPEN
  | CLOSED
  | VERBOTEN
  deriving DecidableEq, Repr

/-- Does region `r` still need to consume more cells?  This is the while-loop
condition (and the final return expression) of `Grid::confined`. -/
abbrev Grid.needMore (g : Grid) (r : Region) (closed : ℤ) : Prop :=
  (r.state = BLACK ∧ closed < g.total_black) ∨ r.state = WHITE ∨
    (0 < r.state ∧ closed < r.state)

/-- Record a consumed unknown cell in the confinement cache (`cache[r].insert(p)`). -/
def cacheInsert (cache : Cache) (i : ℕ) (p : Coord) : Cache :=
  match alookup i cache with
  | some _ => cache.map (fun e => if e.1 = i then (e.1, sinsert p e.2) else e)
  | none => cache ++ [(i, [p])]

/-- One execution of the flag-propagation loop of `Grid::confined`.  `i` and
`r` identify the region under test; the loop pops the OPEN cell of least
linear index, and consumes, discards, or escapes according to the table in the
source.  Fuel exhaustion cannot occur with `confinedFuel` (each iteration pops
one OPEN flag and only finitely many OPEN flags are ever created). -/
def Grid.confinedAux (g : Grid) (i : ℕ) (r : Region) (verboten : List Coord) :
    ℕ → (Coord → Flag) → ℤ → Cache → Bool × Cache
  | 0, _, closed, cache => (decide (g.needMore r closed), cache)
  | fuel + 1, flags, closed, cache =>
    if g.needMore r closed then
      match (rowMajor g.width g.height).find? (fun q => decide (flags q = Flag.OPEN)) with
      | none => (decide (g.needMore r closed), cache)
      | some p =>
        let flags1 : Coord → Flag := fun q => if q = p then Flag.NONE else flags q
        let consumeCell : Bool × Cache :=
          let flags2 : Coord → Flag := fun q => if q = p then Flag.CLOSED else flags1 q
          let flags3 := (g.validNeighbors p.1 p.2).foldl
            (fun f q => if f q = Flag.NONE then (fun q2 => if q2 = q then Flag.OPEN else f q2) else f)
            flags2
          let cache2 := if verboten = [] then cacheInsert cache i p else cache
          g.confinedAux i r verboten fuel flags3 (closed + 1) cache2
        let consumeRegion : Region → Bool × Cache := fun a =>
          let flags2 : Coord → Flag := fun q => if q ∈ a.coords then Flag.CLOSED else flags1 q
          let flags3 := a.unknowns.foldl
            (fun f q => if f q = Flag.NONE then (fun q2 => if q2 = q then Flag.OPEN else f q2) else f)
            flags2
          g.confinedAux i r verboten fuel flags3 (closed + a.size) cache
        let discard : Bool × Cache := g.confinedAux i r verboten fuel flags1 closed cache
        match g.regionAt p with
        | none =>
          if 0 < r.state then
            -- a numbered region cannot consume an unknown cell adjacent to
            -- another numbered region
            if (g.validNeighbors p.1 p.2).any (fun q =>
                match g.regionAt q with
                | some e => decide (¬ e.1 = i) && decide (0 < e.2.state)
                | none => false) then
              discard
            else consumeCell
          else consumeCell
        | some (_, a) =>
          if r.state = BLACK then
            if a.state = BLACK then consumeRegion a else discard
          else if r.state = WHITE then
            if a.state = BLACK then discard
            else if a.state = WHITE then consumeRegion a
            else (false, cache) -- escaped to a numbered region
          else
            if a.state = BLACK then discard
            else if a.state = WHITE then consumeRegion a
            else (decide (g.needMore r closed), cache)
              -- two numbered regions adjacent: logic_error in the source
    else (decide (g.needMore r closed), cache)

/-- Fuel for `Grid.confinedAux`; far larger than the number of loop
iterations possible on the grid. -/
def Grid.confinedFuel (g : Grid) : ℕ := ((g.width * g.height).toNat + 4) * 10 + 10

/-- The flag-propagation simulation of `Grid::confined`, after the cache
fast-path: seed the flags and run the loop. -/
def Grid.confinedSim (g : Grid) (i : ℕ) (cache : Cache) (verboten : List Coord) : Bool × Cache :=
  match alookup i g.regions with
  | none => (false, cache) -- callers only pass ids of regions in `regions`
  | some r =>
    let flags0 : Coord → Flag := fun q =>
      if q ∈ verboten then Flag.VERBOTEN
      else if q ∈ r.coords then Flag.CLOSED
      else if q ∈ r.unknowns then Flag.OPEN
      else Flag.NONE
    g.confinedAux i r verboten g.confinedFuel flags0 r.size cache

/-- `Grid::confined(r, cache, verboten)`: is the region confined when the
verboten cells are unavailable?  With a non-empty verboten set the cache
fast-path can answer "not confined" without simulating. -/
def Grid.confined (g : Grid) (i : ℕ) (cache : Cache) (verboten : List Coord) : Bool × Cache :=
  if verboten = [] then g.confinedSim i cache verboten
  else
    match alookup i cache with
    | none => (false, cache)
    | some consumed =>
      if ∀ p ∈ verboten, ¬ p ∈ consumed then (false, cache)
      else g.confinedSim i cache verboten

/-! ## Contradiction detection -/

/-- Does a 2×2 all-black pool exist? (first check of `Grid::detect_contradictions`). -/
def Grid.poolFound (g : Grid) : Bool :=
  (colMajor (g.width - 1) (g.height - 1)).any (fun p =>
    decide (g.cells p = BLACK) && decide (g.cells (p.1 + 1, p.2) = BLACK) &&
    decide (g.cells (p.1, p.2 + 1) = BLACK) && decide (g.cells (p.1 + 1, p.2 + 1) = BLACK))

/-- The per-region loop of `Grid::detect_contradictions`: accumulate black and
white cell counts, stopping early on a gigantic or confined region.  Returns
`(stopped_early, black_cells, white_cells, cache)`. -/
def Grid.detectLoop (g : Grid) : List (ℕ × Region) → ℤ → ℤ → Cache → Bool × ℤ × ℤ × Cache
  | [], b, w, c => (false, b, w, c)
  | e :: rest, b, w, c =>
    let r := e.2
    if (r.state = WHITE ∧ g.impossibly_big_white_region r.size = true) ∨
        (0 < r.state ∧ r.size > r.state) then
      (true, b, w, c)
    else
      let b1 := if r.state = BLACK then b + r.size else b
      let w1 := if r.state = BLACK then w else w + r.size
      let t := g.confined e.1 c []
      if t.1 then (true, b1, w1, t.2) else g.detectLoop rest b1 w1 t.2

/-- `Grid::detect_contradictions`: pools, gigantic regions, confined regions,
and cell-count overruns.  Returns the verdict, the (possibly contradiction-
flagged) grid, and the populated confinement cache. -/
def Grid.detect_contradictions (g : Grid) (cache : Cache) : Bool × Grid × Cache :=
  if g.poolFound then (true, g.set_contradiction, cache)
  else
    let t := g.detectLoop g.regions 0 0 cache
    if t.1 then (true, g.set_contradiction, t.2.2.2)
    else if t.2.1 > g.total_black then (true, g.set_contradiction, t.2.2.2)
    else if t.2.2.1 > g.width * g.height - g.total_black then (true, g.set_contradiction, t.2.2.2)
    else (false, g, t.2.2.2)

/-! ## Confinement analysis -/

/-- First confinement-analysis loop, per region: with verboten set `{u}`, a
confined region forces `u` to its own colour (black region → black mark,
white or numbered region → white mark). -/
def Grid.confinementStep1 (g : Grid) (u : Coord) (acc : List Coord × List Coord × Cache)
    (e : ℕ × Region) : List Coord × List Coord × Cache :=
  let t := g.confined e.1 acc.2.2 [u]
  if t.1 then
    if e.2.state = BLACK then (sinsert u acc.1, acc.2.1, t.2)
    else (acc.1, sinsert u acc.2.1, t.2)
  else (acc.1, acc.2.1, t.2)

/-- First confinement-analysis loop, per unknown cell. -/
def Grid.confinementCell (g : Grid) (acc : List Coord × List Coord × Cache) (u : Coord) :
    List Coord × List Coord × Cache :=
  if g.cells u = UNKNOWN then g.regions.foldl (g.confinementStep1 u) acc else acc

/-- Second confinement-analysis loop, innermost: another numbered region
confined by `{u} ∪ unknown neighbours of u` forces `u` black. -/
def Grid.confinementStep2Inner (g : Grid) (iOuter : ℕ) (u : Coord) (verboten : List Coord)
    (acc : List Coord × List Coord × Cache) (e2 : ℕ × Region) : List Coord × List Coord × Cache :=
  if ¬ e2.1 = iOuter then
    if 0 < e2.2.state then
      let t := g.confined e2.1 acc.2.2 verboten
      if t.1 then (sinsert u acc.1, acc.2.1, t.2) else (acc.1, acc.2.1, t.2)
    else acc
  else acc

/-- Second confinement-analysis loop, per liberty of a partial numbered region. -/
def Grid.confinementLiberty (g : Grid) (iOuter : ℕ) (acc : List Coord × List Coord × Cache)
    (u : Coord) : List Coord × List Coord × Cache :=
  let verboten := g.insert_valid_unknown_neighbors (sinsert u []) u.1 u.2
  g.regions.foldl (g.confinementStep2Inner iOuter u verboten) acc

/-- Second confinement-analysis loop, per region. -/
def Grid.confinementStep2 (g : Grid) (acc : List Coord × List Coord × Cache) (e : ℕ × Region) :
    List Coord × List Coord × Cache :=
  if 0 < e.2.state ∧ e.2.size < e.2.state then
    e.2.unknowns.foldl (g.confinementLiberty e.1) acc
  else acc

/-- The two mark-collecting loops of `Grid::analyze_confinement`.  Returns the
black marks, the white marks, and the threaded cache. -/
def Grid.confinementMarks (g : Grid) (cache : Cache) : List Coord × List Coord × Cache :=
  g.regions.foldl g.confinementStep2
    ((colMajor g.width g.height).foldl g.confinementCell ([], [], cache))

/-- `Grid::analyze_confinement`. -/
def Grid.analyze_confinement (g : Grid) (cache : Cache) : Bool × Grid :=
  let m := g.confinementMarks cache
  g.process m.1 m.2.1

/-! ## Solve pipeline and hypothetical search -/

/-- The solve pipeline shared by guessing and non-guessing calls: the
completeness check and analysis steps 1–7 of `Grid::solve`, i.e. everything
before hypothetical search.  Returns `(some result, _)` if a step returned, or
`(none, g)` with the grid ready for hypothetical search. -/
def Grid.solvePipeline (g : Grid) : Option (SitRep × Grid) × Grid :=
  if g.known = g.width * g.height then
    let t := g.detect_contradictions []
    if t.1 then (some (CONTRADICTION_FOUND, t.2.1), t.2.1)
    else (some (SOLUTION_FOUND, t.2.1), t.2.1)
  else
    let s1 := g.analyze_complete_islands
    if s1.1 then (some (s1.2.sitrep, s1.2), s1.2) else
    let s2 := s1.2.analyze_single_liberties
    if s2.1 then (some (s2.2.sitrep, s2.2), s2.2) else
    let s3 := s2.2.analyze_dual_liberties
    if s3.1 then (some (s3.2.sitrep, s3.2), s3.2) else
    let s4 := s3.2.analyze_unreachable_cells
    if s4.1 then (some (s4.2.sitrep, s4.2), s4.2) else
    let s5 := s4.2.analyze_potential_pools
    if s5.1 then (some (s5.2.sitrep, s5.2), s5.2) else
    let s6 := s5.2.detect_contradictions []
    if s6.1 then (some (s6.2.1.sitrep, s6.2.1), s6.2.1) else
    let s7 := s6.2.1.analyze_confinement s6.2.2
    if s7.1 then (some (s7.2.sitrep, s7.2), s7.2) else
    (none, s7.2)

/-- `Grid::solve(false, false)`: the solve call used on hypothetical clones,
which never guesses. -/
def Grid.solveNonGuessing (g : Grid) : SitRep × Grid :=
  match g.solvePipeline with
  | (some r, _) => r
  | (none, g7) => (CANNOT_PROCEED, g7)

/-- The `while (sr == KEEP_GOING) sr = other.solve(false, false);` loop of
`Grid::analyze_hypotheticals`, with fuel; `none` means the fuel did not cover
the loop's iterations. -/
def Grid.solveLoop : ℕ → Grid → Option (SitRep × Grid)
  | 0, _ => none
  | fuel + 1, g =>
    let t := g.solveNonGuessing
    if t.1 = KEEP_GOING then Grid.solveLoop fuel t.2 else some t

/-- The guess colour for trial index `i` (`i == 0 ? BLACK : WHITE`). -/
def trialColor (i : ℕ) : ℤ := if i = 0 then BLACK else WHITE

/-- The trial sequence of `Grid::analyze_hypotheticals`: each cell of the
guessing order, first as BLACK then as WHITE. -/
def trialsOf (order : List Coord) : List (Coord × ℕ) :=
  order.bind (fun u => [(u, 0), (u, 1)])

/-- The trial loop of `Grid::analyze_hypotheticals`: clone, mark the guess,
solve to quiescence; commit the deduced colour on a contradiction or a
solution, otherwise continue.  `none` reports inner-loop fuel exhaustion. -/
def Grid.hypLoop (g : Grid) (fuel : ℕ) : List (Coord × ℕ) → Option (Bool × Grid)
  | [] => some (false, g)
  | (u, i) :: rest =>
    let other := g.mark (trialColor i) u.1 u.2
    match Grid.solveLoop fuel other with
    | none => none
    | some (sr, _) =>
      if sr = CONTRADICTION_FOUND then
        some (if i = 0 then g.process [] [u] else g.process [u] [])
      else if sr = SOLUTION_FOUND then
        some (if i = 0 then g.process [u] [] else g.process [] [u])
      else g.hypLoop fuel rest

/-- `Grid::analyze_hypotheticals`, parametrised by the guessing order (see the
module docstring on `random_shuffle`) and the inner-loop fuel. -/
def Grid.analyze_hypotheticals (g : Grid) (order : List Coord) (fuel : ℕ) : Option (Bool × Grid) :=
  g.hypLoop fuel (trialsOf order)

/-- `Grid::solve(verbose, guessing)` (the output log is not modelled, so
`verbose` is dropped).  Returns the status and the updated grid. -/
def Grid.solve (g : Grid) (guessing : Bool) (order : List Coord) (hypFuel : ℕ) : SitRep × Grid :=
  match g.solvePipeline with
  | (some r, _) => r
  | (none, g7) =>
    if guessing then
      match g7.analyze_hypotheticals order hypFuel with
      | some (true, g8) => (g8.sitrep, g8)
      | some (false, g8) => (CANNOT_PROCEED, g8)
      | none => (CANNOT_PROCEED, g7)
    else (CANNOT_PROCEED, g7)

/-! ## Construction (the parser) -/

/-- Characters the constructor's tokenizer accepts: digits, spaces, newlines. -/
def goodChar (c : Char) : Prop := c.isDigit = true ∨ c = ' ' ∨ c = '\n'

instance (c : Char) : Decidable (goodChar c) := by unfold goodChar; infer_instance

/-- Numeric value of a digit character. -/
def digitVal (c : Char) : ℤ := (c.toNat : ℤ) - 48

/-- Emit a pending digit-run value, if one is being accumulated. -/
def flushTok : Option ℤ → List ℤ → List ℤ
  | none, v => v
  | some n, v => n :: v

/-- The tokenizer scan of `Grid::Grid` (the regex `(\d+)|( )|(\n)|[^\d \n]`):
`pending` accumulates the value of the digit run in progress.  A maximal digit
run is one number (`stoi`; range limits are not modelled), a space contributes
0, a newline is skipped, anything else is a parse error (`none`). -/
def parseTokensGo : Option ℤ → List Char → Option (List ℤ)
  | pending, [] => some (flushTok pending [])
  | pending, c :: cs =>
    if c.isDigit then parseTokensGo (some ((pending.getD 0) * 10 + digitVal c)) cs
    else
      match (if c = ' ' then (parseTokensGo none cs).map (fun v => 0 :: v)
             else if c = '\n' then parseTokensGo none cs
             else none) with
      | none => none
      | some v => some (flushTok pending v)

/-- The token list of the constructor's parse (the vector `v`), or `none` on a
bad character. -/
def parseTokens (l : List Char) : Option (List ℤ) := parseTokensGo none l

/-- The token values of a string, skipping characters the tokenizer rejects;
when no bad character is present this is exactly what `parseTokens` returns. -/
def tokenValuesGo : Option ℤ → List Char → List ℤ
  | pending, [] => flushTok pending []
  | pending, c :: cs =>
    if c.isDigit then tokenValuesGo (some ((pending.getD 0) * 10 + digitVal c)) cs
    else flushTok pending (if c = ' ' then 0 :: tokenValuesGo none cs else tokenValuesGo none cs)

/-- The numbers-and-spaces token values of a string. -/
def tokenValues (l : List Char) : List ℤ := tokenValuesGo none l

/-- Row-major token value at `(x, y)` for width `w` (`v[x + y * width]`). -/
def vget (v : List ℤ) (w x y : ℤ) : ℤ := v.getD (x + y * w).toNat 0

/-- The constructor's clue placement at `(x, y)`: set the cell to `n`, create
its singleton region, and subtract `n` from the black total. -/
def Grid.placeClue (g : Grid) (n x y : ℤ) : Grid :=
  let g1 : Grid := { g with cells := fun q => if q = (x, y) then n else g.cells q }
  let g2 := g1.add_region x y
  { g2 with total_black := g2.total_black - n }

/-- The inner (`y`) loop of the constructor: place clue `n = v[x + y*width]`,
rejecting vertically adjacent clues; `k` counts the remaining rows. -/
def Grid.makeLoopY (v : List ℤ) (x : ℤ) : ℕ → ℤ → Grid → Except String Grid
  | 0, _, g => .ok g
  | k + 1, y, g =>
    let n := vget v g.width x y
    if 0 < n then
      if g.valid x (y - 1) ∧ 0 < g.cells (x, y - 1) then
        .error "s contains vertically adjacent numbers"
      else Grid.makeLoopY v x k (y + 1) (g.placeClue n x y)
    else Grid.makeLoopY v x k (y + 1) g

/-- The outer (`x`) loop of the constructor; `j` counts the remaining columns. -/
def Grid.makeLoopX (v : List ℤ) : ℕ → ℤ → Grid → Except String Grid
  | 0, _, g => .ok g
  | j + 1, x, g =>
    match Grid.makeLoopY v x g.height.toNat 0 g with
    | .error e => .error e
    | .ok g1 => Grid.makeLoopX v j (x + 1) g1

/-- `Grid::Grid(width, height, s)`: validate the dimensions, tokenize, check
the cell count, then place the clues.  An `Except.error` models the thrown
`runtime_error` (the solver is not constructed). -/
def Grid.make (w h : ℤ) (s : List Char) : Except String Grid :=
  if w < 1 then .error "width must be at least 1"
  else if h < 1 then .error "height must be at least 1"
  else
    match parseTokens s with
    | none => .error "s must contain only digits, spaces, and newlines"
    | some v =>
      if ¬ (v.length : ℤ) = w * h then
        .error "s must contain width times height numbers and spaces"
      else
        Grid.makeLoopX v w.toNat 0
          { width := w, height := h, total_black := w * h,
            cells := fun _ => UNKNOWN, owner := fun _ => none,
            regions := [], sitrep := KEEP_GOING, nextId := 0 }

/-- Did construction fail? -/
def isErr {α : Type} (e : Except String α) : Bool :=
  match e with
  | .error _ => true
  | .ok _ => false

/-- Spec-side predicate: the token grid contains two vertically adjacent
positive numbers (read row-major at width `w`). -/
def vertAdjacentNumbers (w h : ℤ) (v : List ℤ) : Prop :=
  ∃ p ∈ colMajor w h, 1 ≤ p.2 ∧ 0 < vget v w p.1 (p.2 - 1) ∧ 0 < vget v w p.1 p.2

instance (w h : ℤ) (v : List ℤ) : Decidable (vertAdjacentNumbers w h v) := by
  unfold vertAdjacentNumbers
  infer_instance

/-- Spec-side predicate, following the spec's input-error list verbatim:
width below 1, height below 1, a character other than digit/space/newline,
a numbers-and-spaces count different from `w·h`, or two vertically adjacent
numbers. -/
def makeFailureCondition (w h : ℤ) (s : List Char) : Prop :=
  w < 1 ∨ h < 1 ∨ (∃ c ∈ s, ¬ goodChar c) ∨
    ¬ ((tokenValues s).length : ℤ) = w * h ∨
    vertAdjacentNumbers w h (tokenValues s)

instance (w h : ℤ) (s : List Char) : Decidable (makeFailureCondition w h s) := by
  unfold makeFailureCondition
  infer_instance

/-- The cell array of a grid part-way through the constructor's clue-placement
loops: the positions processed so far are those before column `x`, plus those
in column `x` before row `y`; a processed position holds its token value when
that value is positive and stays Unknown otherwise (proof scaffolding for the
construction-error characterisation). -/
def cellsUpTo (v : List ℤ) (w h x y : ℤ) : Coord → ℤ := fun q =>
  if 0 ≤ q.1 ∧ q.1 < w ∧ 0 ≤ q.2 ∧ q.2 < h ∧
      (q.1 < x ∨ (q.1 = x ∧ q.2 < y)) ∧ 0 < vget v w q.1 q.2
  then vget v w q.1 q.2 else UNKNOWN

/-- The sum of the sizes of all black regions (the quantity accumulated in
`black_cells` by `Grid::detect_contradictions`). -/
def sumBlackSizes (g : Grid) : ℤ :=
  (g.regions.map (fun e => if e.2.state = BLACK then e.2.size else 0)).sum

/-- The numbered entries of the region list (clue islands). -/
def numberedEntries (g : Grid) : List (ℕ × Region) :=
  g.regions.filter (fun e => decide (0 < e.2.state))

/-- Invariant carried through the neighbour-fusion fold of `Grid.mark` when a
BLACK cell has just been placed at `p` (proof scaffolding for the rule R1
idempotence theorem): the numbered entries are pinned to `target`, region keys
are distinct and below `N`, the cell array is pinned to `C`, and `p` is owned
by a black region that contains it. -/
def MarkFoldInv (C : Coord → ℤ) (target : List (ℕ × Region)) (N : ℕ) (p : Coord)
    (h : Grid) : Prop :=
  numberedEntries h = target ∧
  (h.regions.map Prod.fst).Nodup ∧
  (∀ e ∈ h.regions, e.1 < N) ∧
  h.nextId = N ∧
  h.cells = C ∧
  ∃ j rj, h.owner p = some j ∧ alookup j h.regions = some rj ∧
    rj.state = BLACK ∧ p ∈ rj.coords

/-! ## Concrete grids for witnesses and counterexamples -/

/-- A trivial grid, used only as the impossible fallback of fixture matches. -/
def emptyGrid : Grid :=
  { width := 0, height := 0, total_black := 0, cells := fun _ => UNKNOWN,
    owner := fun _ => none, regions := [], sitrep := KEEP_GOING, nextId := 0 }

/-- The 2×1 puzzle `"2 "`: one clue 2 at (0,0), one unknown cell. -/
def gClue2 : Grid :=
  match Grid.make 2 1 ['2', ' '] with
  | .ok g => g
  | .error _ => emptyGrid

/-- The 1×1 puzzle `"1"`: already solved at construction. -/
def gOne : Grid :=
  match Grid.make 1 1 ['1'] with
  | .ok g => g
  | .error _ => emptyGrid

/-- The 2×1 puzzle `"1 "`: a complete island with one liberty. -/
def gR1W : Grid :=
  match Grid.make 2 1 ['1', ' '] with
  | .ok g => g
  | .error _ => emptyGrid

/-- The 4×1 puzzle `"   1"`. -/
def gLadder : Grid :=
  match Grid.make 4 1 [' ', ' ', ' ', '1'] with
  | .ok g => g
  | .error _ => emptyGrid

/-- `gLadder` after rule R1 marked cell (2,0) black: a black region in a
corridor, with a single liberty. -/
def gLadder1 : Grid := (gLadder.analyze_complete_islands).2

/-- The 3×2 puzzle `"2  \n   "`: a clue 2 with two diagonal liberties. -/
def gCorner : Grid :=
  match Grid.make 3 2 ['2', ' ', ' ', '\n', ' ', ' ', ' '] with
  | .ok g => g
  | .error _ => emptyGrid

/-! ## Basic lemmas about the set-as-sorted-list operations -/

theorem mem_sinsert (a p : Coord) (l : List Coord) : a ∈ sinsert p l ↔ a = p ∨ a ∈ l := by
  induction l with
  | nil => simp [sinsert]
  | cons q t ih =>
    simp only [sinsert]
    split_ifs with h1 h2
    · subst h1
      simp only [List.mem_cons]
      tauto
    · simp only [List.mem_cons]
    · simp only [List.mem_cons, ih]
      tauto

theorem mem_foldl_sinsert (a : Coord) (l : List Coord) :
    ∀ acc : List Coord, a ∈ l.foldl (fun ac q => sinsert q ac) acc ↔ a ∈ acc ∨ a ∈ l := by
  induction l with
  | nil => simp
  | cons q t ih =>
    intro acc
    simp only [List.foldl_cons, ih, mem_sinsert, List.mem_cons]
    tauto

theorem mem_intRange (a n : ℤ) : a ∈ intRange n ↔ 0 ≤ a ∧ a < n := by
  unfold intRange
  simp only [List.mem_map, List.mem_range]
  constructor
  · rintro ⟨k, hk, he⟩
    subst he
    omega
  · rintro ⟨h0, hn⟩
    exact ⟨a.toNat, by omega, by omega⟩

theorem mem_colMajor (p : Coord) (w h : ℤ) :
    p ∈ colMajor w h ↔ 0 ≤ p.1 ∧ p.1 < w ∧ 0 ≤ p.2 ∧ p.2 < h := by
  unfold colMajor
  rcases p with ⟨x, y⟩
  simp only [List.mem_bind, List.mem_map, mem_intRange]
  constructor
  · rintro ⟨a, ⟨h1, h2⟩, b, ⟨h3, h4⟩, he⟩
    cases he
    exact ⟨h1, h2, h3, h4⟩
  · rintro ⟨h1, h2, h3, h4⟩
    exact ⟨x, ⟨h1, h2⟩, y, ⟨h3, h4⟩, rfl⟩

/-! ## Claim C8 -/

/-- Claim C8: for every cell whose state is not Unknown and every discovered
set, `unreachable(x_root, y_root, discovered)` returns false (the BFS is never
entered). -/
theorem unreachable_known_root_false (g : Grid) (x y : ℤ) (discovered : List Coord)
    (h : ¬ g.cells (x, y) = UNKNOWN) : g.unreachable x y discovered = false := by
  unfold Grid.unreachable
  simp [h]

/-- Witness for C8: the clue cell of the concrete grid `gClue2` is known, and
`unreachable` returns false on it. -/
theorem unreachable_known_root_false_witness : gClue2.unreachable 0 0 [] = false :=
  unreachable_known_root_false gClue2 0 0 [] (by decide)

/-! ## Claim C10 -/

/-- Claim C10: with a non-empty verboten set, a region with no entry in the
confinement cache (it consumed no unknown cells during the verboten-free run)
is reported not confined immediately, without running the simulation. -/
theorem confined_cache_miss_false (g : Grid) (i : ℕ) (cache : Cache) (verboten : List Coord)
    (hv : ¬ verboten = []) (hc : alookup i cache = none) :
    (g.confined i cache verboten).1 = false := by
  unfold Grid.confined
  rw [if_neg hv, hc]

/-- Witness for C10: on the concrete grid `gClue2` with an empty cache, the
region 0 is reported not confined for the verboten set `{(1,0)}`. -/
theorem confined_cache_miss_false_witness : (gClue2.confined 0 [] [(1, 0)]).1 = false :=
  confined_cache_miss_false gClue2 0 [] [(1, 0)] (by decide) (by decide)

/-! ## Claim C5 -/

/-- Claim C5: marking an already-known cell (with WHITE or BLACK) sets the
global sitrep to ContradictionFound and changes no cell state, no region, and
no cell-to-region assignment. -/
theorem mark_known_cell_contradiction (g : Grid) (s x y : ℤ)
    (hs : s = WHITE ∨ s = BLACK) (hk : ¬ g.cells (x, y) = UNKNOWN) :
    (g.mark s x y).sitrep = CONTRADICTION_FOUND ∧ (g.mark s x y).cells = g.cells ∧
    (g.mark s x y).regions = g.regions ∧ (g.mark s x y).owner = g.owner := by
  unfold Grid.mark
  rw [if_pos hs, if_neg hk]
  exact ⟨rfl, rfl, rfl, rfl⟩

/-- Witness for C5: marking the known clue cell of `gClue2` white records a
contradiction and leaves the grid contents unchanged. -/
theorem mark_known_cell_contradiction_witness :
    (gClue2.mark WHITE 0 0).sitrep = CONTRADICTION_FOUND ∧
    (gClue2.mark WHITE 0 0).cells = gClue2.cells ∧
    (gClue2.mark WHITE 0 0).regions = gClue2.regions ∧
    (gClue2.mark WHITE 0 0).owner = gClue2.owner :=
  mark_known_cell_contradiction gClue2 WHITE 0 0 (Or.inl rfl) (by decide)

/-! ## Claim C4 -/

/-- When `detect_contradictions` finds nothing, it leaves the grid untouched. -/
theorem detect_false_grid (g : Grid) (cache : Cache)
    (h : (g.detect_contradictions cache).1 = false) :
    (g.detect_contradictions cache).2.1 = g := by
  unfold Grid.detect_contradictions at h ⊢
  by_cases hp : g.poolFound = true
  · rw [if_pos hp] at h
    simp at h
  · rw [if_neg hp] at h ⊢
    by_cases h1 : (g.detectLoop g.regions 0 0 cache).1 = true
    · rw [if_pos h1] at h
      simp at h
    · rw [if_neg h1] at h ⊢
      by_cases h2 : (g.detectLoop g.regions 0 0 cache).2.1 > g.total_black
      · rw [if_pos h2] at h
        simp at h
      · rw [if_neg h2] at h ⊢
        by_cases h3 :
            (g.detectLoop g.regions 0 0 cache).2.2.1 > g.width * g.height - g.total_black
        · rw [if_pos h3] at h
          simp at h
        · rw [if_neg h3]

/-- Claim C4: on a grid in which every cell is known and no contradiction is
detectable, `solve` returns SolutionFound and changes nothing: no cell state,
no region, no region assignment, not even the sitrep. -/
theorem solve_on_solved_grid (g : Grid) (guessing : Bool) (order : List Coord) (hypFuel : ℕ)
    (hknown : g.known = g.width * g.height)
    (hdc : (g.detect_contradictions []).1 = false) :
    g.solve guessing order hypFuel = (SOLUTION_FOUND, g) := by
  have hg : (g.detect_contradictions []).2.1 = g := detect_false_grid g [] hdc
  have hpipe : g.solvePipeline = (some (SOLUTION_FOUND, g), g) := by
    unfold Grid.solvePipeline
    rw [if_pos hknown]
    simp [hdc, hg]
  unfold Grid.solve
  rw [hpipe]

/-- Witness for C4: the 1×1 puzzle `"1"` is fully known at construction, no
contradiction is detectable, and `solve` returns SolutionFound unchanged. -/
theorem solve_on_solved_grid_witness : gOne.solve true [] 0 = (SOLUTION_FOUND, gOne) :=
  solve_on_solved_grid gOne true [] 0 (by decide) (by decide)

/-! ## Claim C3 -/

/-- When the per-region loop of `detect_contradictions` runs to completion,
its black-cell counter is the starting value plus the sum of black region
sizes. -/
theorem detectLoop_black (g : Grid) (rs : List (ℕ × Region)) :
    ∀ (b w : ℤ) (c : Cache), (g.detectLoop rs b w c).1 = false →
      (g.detectLoop rs b w c).2.1 =
        b + (rs.map (fun e => if e.2.state = BLACK then e.2.size else 0)).sum := by
  induction rs with
  | nil =>
    intro b w c _
    simp [Grid.detectLoop]
  | cons e rest ih =>
    intro b w c h
    simp only [Grid.detectLoop] at h ⊢
    by_cases h1 : (e.2.state = WHITE ∧ g.impossibly_big_white_region e.2.size = true) ∨
        (0 < e.2.state ∧ e.2.size > e.2.state)
    · rw [if_pos h1] at h
      simp at h
    · rw [if_neg h1] at h ⊢
      by_cases h2 : (g.confined e.1 c []).1 = true
      · rw [if_pos h2] at h
        simp at h
      · rw [if_neg h2] at h ⊢
        rw [ih _ _ _ h]
        simp only [List.map_cons, List.sum_cons]
        split_ifs <;> ring

/-- Claim C3 (amended): the code does not maintain the black-size bound as an
invariant of `mark`; instead `detect_contradictions` checks it, so whenever
`detect_contradictions` reports no contradiction, the sum of the sizes of all
Black regions is at most `total_black`. -/
theorem black_sum_bound_checked (g : Grid) (cache : Cache)
    (h : (g.detect_contradictions cache).1 = false) :
    sumBlackSizes g ≤ g.total_black := by
  unfold Grid.detect_contradictions at h
  by_cases hp : g.poolFound = true
  · rw [if_pos hp] at h
    simp at h
  · rw [if_neg hp] at h
    by_cases h1 : (g.detectLoop g.regions 0 0 cache).1 = true
    · rw [if_pos h1] at h
      simp at h
    · rw [if_neg h1] at h
      by_cases h2 : (g.detectLoop g.regions 0 0 cache).2.1 > g.total_black
      · rw [if_pos h2] at h
        simp at h
      · have hb := detectLoop_black g g.regions 0 0 cache (by simpa using h1)
        unfold sumBlackSizes
        omega

/-- Witness for the amended C3: on the concrete solved grid `gOne`,
`detect_contradictions` reports no contradiction and the bound holds. -/
theorem black_sum_bound_checked_witness : sumBlackSizes gOne ≤ gOne.total_black :=
  black_sum_bound_checked gOne [] (by decide)

/-- Counterexample to C3 as stated: on the constructed 2×1 puzzle `"2 "`
(`total_black = 0`), marking the unknown cell black — exactly the mark the
hypothetical search performs for its first guess — leaves the sum of black
region sizes (1) above `total_black` (0). -/
theorem black_sum_exceeded_after_mark :
    ¬ sumBlackSizes (gClue2.mark BLACK 1 0) ≤ (gClue2.mark BLACK 1 0).total_black := by
  decide

/-! ## Claim C1 -/

set_option maxHeartbeats 2000000 in
/-- With a non-empty verboten set the confinement loop never writes the cache
(the `cache[r].insert(p)` call is guarded by `verboten.empty()`). -/
theorem confinedAux_cache (g : Grid) (i : ℕ) (r : Region) (v : List Coord) (hv : ¬ v = []) :
    ∀ (fuel : ℕ) (flags : Coord → Flag) (closed : ℤ) (c : Cache),
      (g.confinedAux i r v fuel flags closed c).2 = c := by
  intro fuel
  induction fuel with
  | zero =>
    intro flags closed c
    simp [Grid.confinedAux]
  | succ n ih =>
    intro flags closed c
    simp only [Grid.confinedAux]
    by_cases hnm : g.needMore r closed
    · rw [if_pos hnm]
      split
      · rfl
      · split
        · split_ifs <;> exact ih _ _ _
        · split_ifs <;> first
            | rfl
            | exact ih _ _ _
    · rw [if_neg hnm]

/-- With a non-empty verboten set, `confined` returns the cache unchanged. -/
theorem confined_cache (g : Grid) (i : ℕ) (c : Cache) (v : List Coord) (hv : ¬ v = []) :
    (g.confined i c v).2 = c := by
  unfold Grid.confined
  rw [if_neg hv]
  cases hl : alookup i c with
  | none => rfl
  | some consumed =>
    dsimp only
    split_ifs with h
    · rfl
    · unfold Grid.confinedSim
      cases hr : alookup i g.regions with
      | none => rfl
      | some r => exact confinedAux_cache g i r v hv _ _ _ _

/-- Facts about one step of the first confinement-analysis loop: the cache
component stays fixed, marks only grow, and a confined region inserts `u` into
the mark set of its own colour. -/
theorem confinementStep1_facts (g : Grid) (u : Coord) (c : Cache) (mb mw : List Coord)
    (e : ℕ × Region) :
    (g.confinementStep1 u (mb, mw, c) e).2.2 = c ∧
    (∀ p, p ∈ mb → p ∈ (g.confinementStep1 u (mb, mw, c) e).1) ∧
    (∀ p, p ∈ mw → p ∈ (g.confinementStep1 u (mb, mw, c) e).2.1) ∧
    ((g.confined e.1 c [u]).1 = true →
      (e.2.state = BLACK → u ∈ (g.confinementStep1 u (mb, mw, c) e).1) ∧
      (¬ e.2.state = BLACK → u ∈ (g.confinementStep1 u (mb, mw, c) e).2.1)) := by
  have hcc : (g.confined e.1 c [u]).2 = c := confined_cache g e.1 c [u] (by simp)
  simp only [Grid.confinementStep1]
  by_cases h1 : (g.confined e.1 c [u]).1 = true
  · rw [if_pos h1]
    by_cases h2 : e.2.state = BLACK
    · rw [if_pos h2]
      exact ⟨hcc, fun p hp => by simp [mem_sinsert, hp], fun p hp => hp,
        fun _ => ⟨fun _ => by simp [mem_sinsert], fun hb => absurd h2 hb⟩⟩
    · rw [if_neg h2]
      exact ⟨hcc, fun p hp => hp, fun p hp => by simp [mem_sinsert, hp],
        fun _ => ⟨fun hb => absurd hb h2, fun _ => by simp [mem_sinsert]⟩⟩
  · rw [if_neg h1]
    exact ⟨hcc, fun p hp => hp, fun p hp => hp, fun hcon => absurd hcon h1⟩

/-- Behaviour of the per-region fold of the first confinement-analysis loop. -/
theorem confinementFold1 (g : Grid) (u : Coord) (c : Cache) (rs : List (ℕ × Region)) :
    ∀ mb mw : List Coord,
      (rs.foldl (g.confinementStep1 u) (mb, mw, c)).2.2 = c ∧
      (∀ p, p ∈ mb → p ∈ (rs.foldl (g.confinementStep1 u) (mb, mw, c)).1) ∧
      (∀ p, p ∈ mw → p ∈ (rs.foldl (g.confinementStep1 u) (mb, mw, c)).2.1) ∧
      (∀ e ∈ rs, (g.confined e.1 c [u]).1 = true →
        (e.2.state = BLACK → u ∈ (rs.foldl (g.confinementStep1 u) (mb, mw, c)).1) ∧
        (¬ e.2.state = BLACK → u ∈ (rs.foldl (g.confinementStep1 u) (mb, mw, c)).2.1)) := by
  induction rs with
  | nil =>
    intro mb mw
    exact ⟨rfl, fun p hp => hp, fun p hp => hp, fun e he => absurd he (List.not_mem_nil e)⟩
  | cons e0 rest ih =>
    intro mb mw
    obtain ⟨hs1, hs2, hs3, hs4⟩ := confinementStep1_facts g u c mb mw e0
    rcases hs : g.confinementStep1 u (mb, mw, c) e0 with ⟨mb1, mw1, c1⟩
    have hc1 : c1 = c := by rw [hs] at hs1; exact hs1
    subst hc1
    rw [hs] at hs2 hs3 hs4
    obtain ⟨ih1, ih2, ih3, ih4⟩ := ih mb1 mw1
    rw [List.foldl_cons, hs]
    refine ⟨ih1, fun p hp => ih2 p (hs2 p hp), fun p hp => ih3 p (hs3 p hp), ?_⟩
    intro e he hc
    rcases List.mem_cons.mp he with he0 | herest
    · subst he0
      exact ⟨fun hb => ih2 u ((hs4 hc).1 hb), fun hb => ih3 u ((hs4 hc).2 hb)⟩
    · exact ih4 e herest hc

/-- Behaviour of the per-cell fold of the first confinement-analysis loop. -/
theorem confinementFoldCells (g : Grid) (c : Cache) (coords : List Coord) :
    ∀ mb mw : List Coord,
      (coords.foldl g.confinementCell (mb, mw, c)).2.2 = c ∧
      (∀ p, p ∈ mb → p ∈ (coords.foldl g.confinementCell (mb, mw, c)).1) ∧
      (∀ p, p ∈ mw → p ∈ (coords.foldl g.confinementCell (mb, mw, c)).2.1) ∧
      (∀ u ∈ coords, g.cells u = UNKNOWN →
        ∀ e ∈ g.regions, (g.confined e.1 c [u]).1 = true →
          (e.2.state = BLACK → u ∈ (coords.foldl g.confinementCell (mb, mw, c)).1) ∧
          (¬ e.2.state = BLACK → u ∈ (coords.foldl g.confinementCell (mb, mw, c)).2.1)) := by
  induction coords with
  | nil =>
    intro mb mw
    exact ⟨rfl, fun p hp => hp, fun p hp => hp, fun u hu => absurd hu (List.not_mem_nil u)⟩
  | cons u0 rest ih =>
    intro mb mw
    have hcell : (g.confinementCell (mb, mw, c) u0).2.2 = c ∧
        (∀ p, p ∈ mb → p ∈ (g.confinementCell (mb, mw, c) u0).1) ∧
        (∀ p, p ∈ mw → p ∈ (g.confinementCell (mb, mw, c) u0).2.1) ∧
        (g.cells u0 = UNKNOWN →
          ∀ e ∈ g.regions, (g.confined e.1 c [u0]).1 = true →
            (e.2.state = BLACK → u0 ∈ (g.confinementCell (mb, mw, c) u0).1) ∧
            (¬ e.2.state = BLACK → u0 ∈ (g.confinementCell (mb, mw, c) u0).2.1)) := by
      unfold Grid.confinementCell
      by_cases hu : g.cells u0 = UNKNOWN
      · rw [if_pos hu]
        obtain ⟨f1, f2, f3, f4⟩ := confinementFold1 g u0 c g.regions mb mw
        exact ⟨f1, f2, f3, fun _ e he hc => f4 e he hc⟩
      · rw [if_neg hu]
        exact ⟨rfl, fun p hp => hp, fun p hp => hp, fun hu2 => absurd hu2 hu⟩
    obtain ⟨hs1, hs2, hs3, hs4⟩ := hcell
    rcases hs : g.confinementCell (mb, mw, c) u0 with ⟨mb1, mw1, c1⟩
    have hc1 : c1 = c := by rw [hs] at hs1; exact hs1
    subst hc1
    rw [hs] at hs2 hs3 hs4
    obtain ⟨ih1, ih2, ih3, ih4⟩ := ih mb1 mw1
    rw [List.foldl_cons, hs]
    refine ⟨ih1, fun p hp => ih2 p (hs2 p hp), fun p hp => ih3 p (hs3 p hp), ?_⟩
    intro u hu hcu e he hc
    rcases List.mem_cons.mp hu with hu0 | hurest
    · subst hu0
      have hin := hs4 hcu e he hc
      exact ⟨fun hb => ih2 u (hin.1 hb), fun hb => ih3 u (hin.2 hb)⟩
    · exact ih4 u hurest hcu e he hc

/-- Folding unknown-neighbour insertion over a list preserves membership of
the accumulator set. -/
theorem mem_foldl_insert_unknown (g : Grid) (l : List Coord) :
    ∀ (s : List Coord) (p : Coord), p ∈ s →
      p ∈ l.foldl (fun acc q => if g.cells q = UNKNOWN then sinsert q acc else acc) s := by
  induction l with
  | nil => exact fun s p hp => hp
  | cons q t ih =>
    intro s p hp
    simp only [List.foldl_cons]
    apply ih
    split_ifs
    · simp [mem_sinsert, hp]
    · exact hp

/-- Facts about one step of the innermost fold of the second
confinement-analysis loop: cache fixed, black marks only grow, white marks
unchanged. -/
theorem confinementStep2Inner_facts (g : Grid) (iOuter : ℕ) (u : Coord)
    (verboten : List Coord) (hv : ¬ verboten = []) (c : Cache) (mb mw : List Coord)
    (e2 : ℕ × Region) :
    (g.confinementStep2Inner iOuter u verboten (mb, mw, c) e2).2.2 = c ∧
    (∀ p, p ∈ mb → p ∈ (g.confinementStep2Inner iOuter u verboten (mb, mw, c) e2).1) ∧
    (g.confinementStep2Inner iOuter u verboten (mb, mw, c) e2).2.1 = mw := by
  have hcc : (g.confined e2.1 c verboten).2 = c := confined_cache g e2.1 c verboten hv
  simp only [Grid.confinementStep2Inner]
  by_cases h1 : ¬ e2.1 = iOuter
  · rw [if_pos h1]
    by_cases h2 : 0 < e2.2.state
    · rw [if_pos h2]
      by_cases h3 : (g.confined e2.1 c verboten).1 = true
      · rw [if_pos h3]
        exact ⟨hcc, fun p hp => by simp [mem_sinsert, hp], rfl⟩
      · rw [if_neg h3]
        exact ⟨hcc, fun p hp => hp, rfl⟩
    · rw [if_neg h2]
      exact ⟨rfl, fun p hp => hp, rfl⟩
  · rw [if_neg h1]
    exact ⟨rfl, fun p hp => hp, rfl⟩

/-- The innermost fold of the second confinement-analysis loop. -/
theorem confinementFold2Inner (g : Grid) (iOuter : ℕ) (u : Coord) (verboten : List Coord)
    (hv : ¬ verboten = []) (c : Cache) (rs : List (ℕ × Region)) :
    ∀ mb mw : List Coord,
      (rs.foldl (g.confinementStep2Inner iOuter u verboten) (mb, mw, c)).2.2 = c ∧
      (∀ p, p ∈ mb → p ∈ (rs.foldl (g.confinementStep2Inner iOuter u verboten) (mb, mw, c)).1) ∧
      (rs.foldl (g.confinementStep2Inner iOuter u verboten) (mb, mw, c)).2.1 = mw := by
  induction rs with
  | nil => exact fun mb mw => ⟨rfl, fun p hp => hp, rfl⟩
  | cons e0 rest ih =>
    intro mb mw
    obtain ⟨hs1, hs2, hs3⟩ := confinementStep2Inner_facts g iOuter u verboten hv c mb mw e0
    rcases hs : g.confinementStep2Inner iOuter u verboten (mb, mw, c) e0 with ⟨mb1, mw1, c1⟩
    have hc1 : c1 = c := by rw [hs] at hs1; exact hs1
    subst hc1
    rw [hs] at hs2 hs3
    obtain ⟨ih1, ih2, ih3⟩ := ih mb1 mw1
    rw [List.foldl_cons, hs]
    exact ⟨ih1, fun p hp => ih2 p (hs2 p hp), by rw [ih3]; exact hs3⟩

/-- The per-liberty fold of the second confinement-analysis loop. -/
theorem confinementFoldLiberty (g : Grid) (iOuter : ℕ) (c : Cache) (us : List Coord) :
    ∀ mb mw : List Coord,
      (us.foldl (g.confinementLiberty iOuter) (mb, mw, c)).2.2 = c ∧
      (∀ p, p ∈ mb → p ∈ (us.foldl (g.confinementLiberty iOuter) (mb, mw, c)).1) ∧
      (us.foldl (g.confinementLiberty iOuter) (mb, mw, c)).2.1 = mw := by
  induction us with
  | nil => exact fun mb mw => ⟨rfl, fun p hp => hp, rfl⟩
  | cons u0 rest ih =>
    intro mb mw
    have hv : ¬ g.insert_valid_unknown_neighbors (sinsert u0 []) u0.1 u0.2 = [] := by
      intro he
      have hmem : u0 ∈ g.insert_valid_unknown_neighbors (sinsert u0 []) u0.1 u0.2 :=
        mem_foldl_insert_unknown g (g.validNeighbors u0.1 u0.2) (sinsert u0 []) u0
          (by simp [mem_sinsert])
      rw [he] at hmem
      exact absurd hmem (List.not_mem_nil u0)
    have hlib : (g.confinementLiberty iOuter (mb, mw, c) u0).2.2 = c ∧
        (∀ p, p ∈ mb → p ∈ (g.confinementLiberty iOuter (mb, mw, c) u0).1) ∧
        (g.confinementLiberty iOuter (mb, mw, c) u0).2.1 = mw := by
      unfold Grid.confinementLiberty
      exact confinementFold2Inner g iOuter u0 _ hv c g.regions mb mw
    obtain ⟨hs1, hs2, hs3⟩ := hlib
    rcases hs : g.confinementLiberty iOuter (mb, mw, c) u0 with ⟨mb1, mw1, c1⟩
    have hc1 : c1 = c := by rw [hs] at hs1; exact hs1
    subst hc1
    rw [hs] at hs2 hs3
    obtain ⟨ih1, ih2, ih3⟩ := ih mb1 mw1
    rw [List.foldl_cons, hs]
    exact ⟨ih1, fun p hp => ih2 p (hs2 p hp), by rw [ih3]; exact hs3⟩

/-- The second confinement-analysis loop: cache fixed, black marks only grow,
white marks unchanged. -/
theorem confinementFold2 (g : Grid) (c : Cache) (rs : List (ℕ × Region)) :
    ∀ mb mw : List Coord,
      (rs.foldl g.confinementStep2 (mb, mw, c)).2.2 = c ∧
      (∀ p, p ∈ mb → p ∈ (rs.foldl g.confinementStep2 (mb, mw, c)).1) ∧
      (rs.foldl g.confinementStep2 (mb, mw, c)).2.1 = mw := by
  induction rs with
  | nil => exact fun mb mw => ⟨rfl, fun p hp => hp, rfl⟩
  | cons e0 rest ih =>
    intro mb mw
    have hstep : (g.confinementStep2 (mb, mw, c) e0).2.2 = c ∧
        (∀ p, p ∈ mb → p ∈ (g.confinementStep2 (mb, mw, c) e0).1) ∧
        (g.confinementStep2 (mb, mw, c) e0).2.1 = mw := by
      unfold Grid.confinementStep2
      split_ifs with h1
      · exact confinementFoldLiberty g e0.1 c e0.2.unknowns mb mw
      · exact ⟨rfl, fun p hp => hp, rfl⟩
    obtain ⟨hs1, hs2, hs3⟩ := hstep
    rcases hs : g.confinementStep2 (mb, mw, c) e0 with ⟨mb1, mw1, c1⟩
    have hc1 : c1 = c := by rw [hs] at hs1; exact hs1
    subst hc1
    rw [hs] at hs2 hs3
    obtain ⟨ih1, ih2, ih3⟩ := ih mb1 mw1
    rw [List.foldl_cons, hs]
    exact ⟨ih1, fun p hp => ih2 p (hs2 p hp), by rw [ih3]; exact hs3⟩

/-- Claim C1: during confinement analysis, for an Unknown cell `u` and
verboten set `{u}`, a region `r` confined under `{u}` makes the analysis mark
`u` black when `r` is a Black region and white when `r` is a White or
Numbered region. -/
theorem confinement_marking_direction (g : Grid) (cache : Cache) (x y : ℤ)
    (hx0 : 0 ≤ x) (hxw : x < g.width) (hy0 : 0 ≤ y) (hyh : y < g.height)
    (hu : g.cells (x, y) = UNKNOWN)
    (i : ℕ) (r : Region) (hr : (i, r) ∈ g.regions)
    (hc : (g.confined i cache [(x, y)]).1 = true) :
    (r.state = BLACK → (x, y) ∈ (g.confinementMarks cache).1) ∧
    ((r.state = WHITE ∨ 0 < r.state) → (x, y) ∈ (g.confinementMarks cache).2.1) := by
  have hmem : ((x, y) : Coord) ∈ colMajor g.width g.height := by
    rw [mem_colMajor]
    exact ⟨hx0, hxw, hy0, hyh⟩
  obtain ⟨hc1, _, _, hall⟩ := confinementFoldCells g cache (colMajor g.width g.height) [] []
  have hin := hall (x, y) hmem hu (i, r) hr hc
  rcases hs : (colMajor g.width g.height).foldl g.confinementCell ([], [], cache)
    with ⟨mb1, mw1, c1⟩
  rw [hs] at hin
  obtain ⟨_, hmono, hwhite⟩ := confinementFold2 g c1 g.regions mb1 mw1
  constructor
  · intro hb
    unfold Grid.confinementMarks
    rw [hs]
    exact hmono (x, y) (hin.1 hb)
  · intro hw
    have hnb : ¬ r.state = BLACK := by
      rcases hw with hw | hw
      · rw [hw]
        unfold WHITE BLACK
        omega
      · unfold BLACK
        omega
    unfold Grid.confinementMarks
    rw [hs, hwhite]
    exact hin.2 hnb

/-- Witness for C1: on `gClue2` with a cache recording that region 0 consumed
cell (1,0), region 0 (numbered) is confined under verboten `{(1,0)}`, and the
analysis marks (1,0) white. -/
theorem confinement_marking_direction_witness :
    (1, 0) ∈ (gClue2.confinementMarks [(0, [(1, 0)])]).2.1 :=
  (confinement_marking_direction gClue2 [(0, [(1, 0)])] 1 0 (by decide) (by decide)
    (by decide) (by decide) (by decide) 0
    { state := 2, coords := [(0, 0)], unknowns := [(1, 0)] } (by decide) (by decide)).2
    (Or.inr (by decide))

/-! ## Claim C7 -/

/-- One step of rule R3 only grows the mark set, and everything it inserts is
an Unknown cell. -/
theorem dualLibertyStep_facts (g : Grid) (acc : List Coord) (e : ℕ × Region) :
    (∀ p, p ∈ acc → p ∈ g.dualLibertyStep acc e) ∧
    (∀ p, p ∈ g.dualLibertyStep acc e → p ∈ acc ∨ g.cells p = UNKNOWN) := by
  unfold Grid.dualLibertyStep
  dsimp only
  split_ifs with h1
  · split
    · split_ifs with h2 h3
      · constructor
        · intro p hp
          simp [mem_sinsert, hp]
        · intro p hp
          rcases (mem_sinsert p _ acc).mp hp with he | hin
          · right
            rw [he]
            exact h3
          · left
            exact hin
      · exact ⟨fun p hp => hp, fun p hp => Or.inl hp⟩
      · exact ⟨fun p hp => hp, fun p hp => Or.inl hp⟩
    · exact ⟨fun p hp => hp, fun p hp => Or.inl hp⟩
  · exact ⟨fun p hp => hp, fun p hp => Or.inl hp⟩

/-- The fold of rule R3 over a region list: marks only grow, and every mark is
an Unknown cell. -/
theorem dualLibertyFold (g : Grid) (rs : List (ℕ × Region)) :
    ∀ acc : List Coord,
      (∀ p, p ∈ acc → p ∈ rs.foldl g.dualLibertyStep acc) ∧
      (∀ p, p ∈ rs.foldl g.dualLibertyStep acc → p ∈ acc ∨ g.cells p = UNKNOWN) := by
  induction rs with
  | nil => exact fun acc => ⟨fun p hp => hp, fun p hp => Or.inl hp⟩
  | cons e0 rest ih =>
    intro acc
    obtain ⟨hs1, hs2⟩ := dualLibertyStep_facts g acc e0
    obtain ⟨ih1, ih2⟩ := ih (g.dualLibertyStep acc e0)
    refine ⟨fun p hp => ih1 p (hs1 p hp), fun p hp => ?_⟩
    rcases ih2 p hp with hin | hu
    · exact hs2 p hin
    · exact Or.inr hu

/-- A region satisfying the dual-liberty conditions, whose far corner is
Unknown, makes the R3 step insert the far corner. -/
theorem dualLibertyStep_inserts (g : Grid) (acc : List Coord) (i : ℕ) (r : Region)
    (u1 u2 : Coord) (hnum : 0 < r.state) (hsize : r.size = r.state - 1)
    (hunk : r.unknowns = [u1, u2])
    (hdx : (u1.1 - u2.1).natAbs = 1) (hdy : (u1.2 - u2.2).natAbs = 1)
    (hcell : g.cells (farCorner r u1 u2) = UNKNOWN) :
    farCorner r u1 u2 ∈ g.dualLibertyStep acc (i, r) := by
  unfold Grid.dualLibertyStep
  dsimp only
  rw [if_pos ⟨hnum, hsize⟩, hunk]
  dsimp only
  rw [if_pos ⟨hdx, hdy⟩, if_pos hcell]
  simp [mem_sinsert]

/-- Claim C7: for a numbered region one short of complete whose exactly two
liberties `u1, u2` (in the stored set order) are diagonal neighbours, rule R3
selects the far corner — `(u2.x, u1.y)` if the region contains `(u1.x, u2.y)`,
else `(u1.x, u2.y)` — and proposes it as a Black mark if and only if that far
corner is currently Unknown. -/
theorem dual_liberties_far_corner (g : Grid) (i : ℕ) (r : Region) (u1 u2 : Coord)
    (hr : (i, r) ∈ g.regions) (hnum : 0 < r.state) (hsize : r.size = r.state - 1)
    (hunk : r.unknowns = [u1, u2])
    (hdx : (u1.1 - u2.1).natAbs = 1) (hdy : (u1.2 - u2.2).natAbs = 1) :
    farCorner r u1 u2 ∈ g.dualLibertyMarks ↔ g.cells (farCorner r u1 u2) = UNKNOWN := by
  constructor
  · intro hmem
    rcases (dualLibertyFold g g.regions []).2 _ hmem with hin | hu
    · exact absurd hin (List.not_mem_nil _)
    · exact hu
  · intro hcell
    obtain ⟨l1, l2, hsplit⟩ := List.append_of_mem hr
    unfold Grid.dualLibertyMarks
    rw [hsplit, List.foldl_append, List.foldl_cons]
    apply (dualLibertyFold g l2 _).1
    exact dualLibertyStep_inserts g _ i r u1 u2 hnum hsize hunk hdx hdy hcell

/-- Witness for C7: on the 3×2 grid `gCorner`, the clue-2 region has liberties
(0,1) and (1,0); the far corner (1,1) is Unknown and is proposed black. -/
theorem dual_liberties_far_corner_witness :
    farCorner { state := 2, coords := [(0, 0)], unknowns := [(0, 1), (1, 0)] } (0, 1) (1, 0) ∈
      gCorner.dualLibertyMarks :=
  (dual_liberties_far_corner gCorner 0
    { state := 2, coords := [(0, 0)], unknowns := [(0, 1), (1, 0)] } (0, 1) (1, 0)
    (by decide) (by decide) (by decide) (by decide) (by decide) (by decide)).2 (by decide)

/-! ## Claim C6 -/

/-- Unpack a solve-loop outcome known through its status component. -/
theorem solveLoop_eq_of_map (fuel : ℕ) (h : Grid) (sr : SitRep)
    (hm : (Grid.solveLoop fuel h).map Prod.fst = some sr) :
    ∃ g2, Grid.solveLoop fuel h = some (sr, g2) := by
  cases hsl : Grid.solveLoop fuel h with
  | none =>
    rw [hsl] at hm
    simp at hm
  | some pr =>
    rw [hsl] at hm
    simp at hm
    refine ⟨pr.2, ?_⟩
    rw [← hm]

/-- Trials whose clone solves to CannotProceed are skipped by the trial loop. -/
theorem hypLoop_skip (g : Grid) (fuel : ℕ) (T1 : List (Coord × ℕ)) :
    ∀ rest : List (Coord × ℕ),
      (∀ t ∈ T1, (Grid.solveLoop fuel (g.mark (trialColor t.2) t.1.1 t.1.2)).map Prod.fst =
        some CANNOT_PROCEED) →
      g.hypLoop fuel (T1 ++ rest) = g.hypLoop fuel rest := by
  induction T1 with
  | nil => exact fun rest _ => rfl
  | cons t0 T ih =>
    rcases t0 with ⟨u0, i0⟩
    intro rest hpre
    have h0 := hpre (u0, i0) (List.mem_cons_self _ _)
    obtain ⟨g2, hpr⟩ := solveLoop_eq_of_map fuel _ CANNOT_PROCEED h0
    rw [List.cons_append]
    simp only [Grid.hypLoop]
    rw [hpr]
    simp only [reduceCtorEq, if_false]
    exact ih rest (fun t ht => hpre t (List.mem_cons_of_mem _ ht))

/-- Claim C6: in hypothetical search, for the first guessed (cell, colour)
trial whose cloned solve loop ends decisively (all earlier trials ending in
CannotProceed): a Contradiction outcome makes the true grid mark the cell the
opposite colour and the search return success; a Solution outcome makes it
mark the same colour and return success.  Trial index `i = 0` is the BLACK
guess and `i = 1` the WHITE guess, as in the source's inner loop. -/
theorem hypotheticals_first_decisive_trial (g : Grid) (fuel : ℕ) (order : List Coord)
    (T1 T2 : List (Coord × ℕ)) (x y : ℤ) (i : ℕ)
    (hT : trialsOf order = T1 ++ ((x, y), i) :: T2)
    (hpre : ∀ t ∈ T1, (Grid.solveLoop fuel (g.mark (trialColor t.2) t.1.1 t.1.2)).map Prod.fst =
      some CANNOT_PROCEED) :
    ((Grid.solveLoop fuel (g.mark (trialColor i) x y)).map Prod.fst =
        some CONTRADICTION_FOUND →
      g.analyze_hypotheticals order fuel =
        some (true, g.mark (if i = 0 then WHITE else BLACK) x y)) ∧
    ((Grid.solveLoop fuel (g.mark (trialColor i) x y)).map Prod.fst = some SOLUTION_FOUND →
      g.analyze_hypotheticals order fuel =
        some (true, g.mark (if i = 0 then BLACK else WHITE) x y)) := by
  unfold Grid.analyze_hypotheticals
  rw [hT, hypLoop_skip g fuel T1 _ hpre]
  constructor
  · intro hk
    obtain ⟨g2, hpr⟩ := solveLoop_eq_of_map fuel _ CONTRADICTION_FOUND hk
    simp only [Grid.hypLoop]
    rw [hpr]
    by_cases hi : i = 0
    · subst hi
      simp [Grid.process, markList, trialColor]
    · simp [Grid.process, markList, trialColor, hi]
  · intro hk
    obtain ⟨g2, hpr⟩ := solveLoop_eq_of_map fuel _ SOLUTION_FOUND hk
    simp only [Grid.hypLoop]
    rw [hpr]
    by_cases hi : i = 0
    · subst hi
      simp [Grid.process, markList, trialColor]
    · simp [Grid.process, markList, trialColor, hi]

/-- Witness for C6: on `gClue2` with guessing order `[(1,0)]`, the first trial
(BLACK at (1,0)) solves to a contradiction, so the search marks (1,0) WHITE on
the true grid and succeeds. -/
theorem hypotheticals_first_decisive_trial_witness :
    gClue2.analyze_hypotheticals [(1, 0)] 1 = some (true, gClue2.mark WHITE 1 0) := by
  have h := (hypotheticals_first_decisive_trial gClue2 1 [(1, 0)] [] [((1, 0), 1)] 1 0 0
    rfl (fun t ht => absurd ht (List.not_mem_nil t))).1 (by decide)
  simpa using h

/-! ## Claim C2: supporting lemmas -/

theorem coordLt_trans {a b c : Coord} (h1 : coordLt a b) (h2 : coordLt b c) : coordLt a c := by
  unfold coordLt at *
  rcases a with ⟨a1, a2⟩
  rcases b with ⟨b1, b2⟩
  rcases c with ⟨c1, c2⟩
  simp only at *
  omega

theorem coordLt_ne {a b : Coord} (h : coordLt a b) : a ≠ b := by
  intro he
  subst he
  unfold coordLt at h
  rcases h with h | ⟨h1, h2⟩
  · exact absurd h (lt_irrefl _)
  · exact absurd h2 (lt_irrefl _)

theorem coordLt_of_not {a b : Coord} (hne : ¬ a = b) (hlt : ¬ coordLt a b) : coordLt b a := by
  unfold coordLt at *
  rcases a with ⟨a1, a2⟩
  rcases b with ⟨b1, b2⟩
  simp only [Prod.mk.injEq] at hne
  simp only at *
  by_cases h : a1 = b1
  · subst h
    simp at hne
    omega
  · omega

theorem pairwise_sinsert (p : Coord) (l : List Coord) (h : l.Pairwise coordLt) :
    (sinsert p l).Pairwise coordLt := by
  induction l with
  | nil => simp [sinsert]
  | cons q t ih =>
    rw [List.pairwise_cons] at h
    obtain ⟨hq, ht⟩ := h
    simp only [sinsert]
    split_ifs with h1 h2
    · exact List.pairwise_cons.mpr ⟨hq, ht⟩
    · refine List.pairwise_cons.mpr ⟨?_, List.pairwise_cons.mpr ⟨hq, ht⟩⟩
      intro a ha
      rcases List.mem_cons.mp ha with rfl | hat
      · exact h2
      · exact coordLt_trans h2 (hq a hat)
    · refine List.pairwise_cons.mpr ⟨?_, ih ht⟩
      intro a ha
      rcases (mem_sinsert a p t).mp ha with rfl | hat
      · exact coordLt_of_not h1 h2
      · exact hq a hat

theorem nodup_of_pairwise_coordLt {l : List Coord} (h : l.Pairwise coordLt) : l.Nodup :=
  h.imp (fun hab => coordLt_ne hab)

theorem pairwise_foldl_sinsert (l : List Coord) :
    ∀ acc : List Coord, acc.Pairwise coordLt →
      (l.foldl (fun a q => sinsert q a) acc).Pairwise coordLt := by
  induction l with
  | nil => exact fun acc h => h
  | cons q t ih =>
    intro acc h
    exact ih (sinsert q acc) (pairwise_sinsert q acc h)

theorem pairwise_foldl_completeIslandStep (rs : List (ℕ × Region)) :
    ∀ acc : List Coord, acc.Pairwise coordLt →
      (rs.foldl Grid.completeIslandStep acc).Pairwise coordLt := by
  induction rs with
  | nil => exact fun acc h => h
  | cons e t ih =>
    intro acc h
    apply ih
    unfold Grid.completeIslandStep
    split_ifs
    · exact pairwise_foldl_sinsert _ acc h
    · exact h

/-- Membership characterisation of the rule R1 mark fold. -/
theorem mem_foldl_completeIslandStep (rs : List (ℕ × Region)) :
    ∀ (acc : List Coord) (p : Coord),
      p ∈ rs.foldl Grid.completeIslandStep acc ↔
        p ∈ acc ∨ ∃ e ∈ rs, 0 < e.2.state ∧ e.2.size = e.2.state ∧ p ∈ e.2.unknowns := by
  induction rs with
  | nil =>
    intro acc p
    simp
  | cons e t ih =>
    intro acc p
    simp only [List.foldl_cons, Grid.completeIslandStep]
    split_ifs with hc
    · rw [ih, mem_foldl_sinsert]
      constructor
      · rintro ((hp | hpu) | ⟨e', he', h1, h2, h3⟩)
        · exact Or.inl hp
        · exact Or.inr ⟨e, List.mem_cons_self _ _, hc.1, hc.2, hpu⟩
        · exact Or.inr ⟨e', List.mem_cons_of_mem _ he', h1, h2, h3⟩
      · rintro (hp | ⟨e', he', h1, h2, h3⟩)
        · exact Or.inl (Or.inl hp)
        · rcases List.mem_cons.mp he' with rfl | he'
          · exact Or.inl (Or.inr h3)
          · exact Or.inr ⟨e', he', h1, h2, h3⟩
    · rw [ih]
      constructor
      · rintro (hp | ⟨e', he', h1, h2, h3⟩)
        · exact Or.inl hp
        · exact Or.inr ⟨e', List.mem_cons_of_mem _ he', h1, h2, h3⟩
      · rintro (hp | ⟨e', he', h1, h2, h3⟩)
        · exact Or.inl hp
        · rcases List.mem_cons.mp he' with rfl | he'
          · exact absurd ⟨h1, h2⟩ hc
          · exact Or.inr ⟨e', he', h1, h2, h3⟩

theorem alookup_eq_of_mem {α : Type} (l : List (ℕ × α)) (hnd : (l.map Prod.fst).Nodup)
    (i : ℕ) (r : α) (hm : (i, r) ∈ l) : alookup i l = some r := by
  induction l with
  | nil => exact absurd hm (List.not_mem_nil _)
  | cons e t ih =>
    rw [List.map_cons, List.nodup_cons] at hnd
    rcases List.mem_cons.mp hm with rfl | hmt
    · simp [alookup]
    · unfold alookup
      split_ifs with he
      · exfalso
        apply hnd.1
        rw [he]
        exact List.mem_map_of_mem Prod.fst hmt
      · exact ih hnd.2 hmt

theorem mem_of_alookup {α : Type} (l : List (ℕ × α)) (i : ℕ) (r : α)
    (h : alookup i l = some r) : (i, r) ∈ l := by
  induction l with
  | nil => simp [alookup] at h
  | cons e t ih =>
    unfold alookup at h
    split_ifs at h with he
    · rcases e with ⟨j, s⟩
      simp only at he
      subst he
      rw [Option.some_inj] at h
      subst h
      exact List.mem_cons_self _ _
    · exact List.mem_cons_of_mem _ (ih h)

theorem alookup_append_fresh {α : Type} (l : List (ℕ × α)) (n : ℕ) (r : α)
    (h : ∀ e ∈ l, ¬ e.1 = n) : alookup n (l ++ [(n, r)]) = some r := by
  induction l with
  | nil => simp [alookup]
  | cons e t ih =>
    rw [List.cons_append]
    unfold alookup
    rw [if_neg (h e (List.mem_cons_self _ _))]
    exact ih (fun e2 he2 => h e2 (List.mem_cons_of_mem _ he2))

/-- Keys are unchanged by a value-only update map. -/
theorem keys_map_update (l : List (ℕ × Region)) (pi_ : ℕ) (merged : Region) :
    ((l.map (fun e => if e.1 = pi_ then (pi_, merged) else e)).map Prod.fst) = l.map Prod.fst := by
  induction l with
  | nil => rfl
  | cons e t ih =>
    simp only [List.map_cons]
    split_ifs with he
    · rw [ih, ← he]

    · rw [ih]

/-- Keys are unchanged by the liberty-erase map of `mark`. -/
theorem keys_map_erase (l : List (ℕ × Region)) (x y : ℤ) :
    ((l.map (fun e => (e.1, e.2.unk_erase x y))).map Prod.fst) = l.map Prod.fst := by
  induction l with
  | nil => rfl
  | cons e t ih => simp only [List.map_cons, ih]

/-- Numbered entries are unchanged (up to the erase) by the liberty-erase map. -/
theorem numbered_filter_map_erase (l : List (ℕ × Region)) (x y : ℤ) :
    (l.map (fun e => (e.1, e.2.unk_erase x y))).filter (fun e => decide (0 < e.2.state)) =
      (l.filter (fun e => decide (0 < e.2.state))).map (fun e => (e.1, e.2.unk_erase x y)) := by
  induction l with
  | nil => rfl
  | cons e t ih =>
    simp only [List.map_cons, List.filter_cons]
    by_cases he : 0 < e.2.state
    · rw [if_pos (by simpa [Region.unk_erase] using he), if_pos (by simpa using he)]
      simp only [List.map_cons, ih]
    · rw [if_neg (by simpa [Region.unk_erase] using he), if_neg (by simpa using he)]
      exact ih

/-- The merge rewrite of `fuseMerge` leaves the numbered entries unchanged
when the entries at the primary and secondary keys are not numbered. -/
theorem numbered_filter_update (l : List (ℕ × Region)) (pi_ si : ℕ) (merged : Region)
    (hpval : ∀ e ∈ l, e.1 = pi_ → ¬ 0 < e.2.state)
    (hsval : ∀ e ∈ l, e.1 = si → ¬ 0 < e.2.state)
    (hmb : ¬ 0 < merged.state) :
    ((l.filter (fun e => decide (¬ e.1 = si))).map
        (fun e => if e.1 = pi_ then (pi_, merged) else e)).filter
      (fun e => decide (0 < e.2.state)) =
      l.filter (fun e => decide (0 < e.2.state)) := by
  induction l with
  | nil => rfl
  | cons e t ih =>
    have iht := ih (fun e2 he2 hk => hpval e2 (List.mem_cons_of_mem _ he2) hk)
      (fun e2 he2 hk => hsval e2 (List.mem_cons_of_mem _ he2) hk)
    simp only [List.filter_cons]
    by_cases hes : e.1 = si
    · rw [if_neg (by simpa using hes)]
      rw [if_neg (by simpa using hsval e (List.mem_cons_self _ _) hes)]
      exact iht
    · rw [if_pos (by simpa using hes)]
      simp only [List.map_cons]
      by_cases hep : e.1 = pi_
      · rw [if_pos hep]
        simp only [List.filter_cons]
        rw [if_neg (by simpa using hmb)]
        rw [if_neg (by simpa using hpval e (List.mem_cons_self _ _) hep)]
        exact iht
      · rw [if_neg hep]
        simp only [List.filter_cons]
        by_cases hen : 0 < e.2.state
        · rw [if_pos (by simpa using hen), if_pos (by simpa using hen)]
          rw [iht]
        · rw [if_neg (by simpa using hen), if_neg (by simpa using hen)]
          exact iht

/-- Looking up the primary key after the merge rewrite finds the merged
region. -/
theorem alookup_filter_update (l : List (ℕ × Region)) (pi_ si : ℕ) (merged : Region)
    (hne : ¬ pi_ = si) (hex : ∃ r, alookup pi_ l = some r) :
    alookup pi_ ((l.filter (fun e => decide (¬ e.1 = si))).map
      (fun e => if e.1 = pi_ then (pi_, merged) else e)) = some merged := by
  induction l with
  | nil =>
    obtain ⟨r, hr⟩ := hex
    simp [alookup] at hr
  | cons e t ih =>
    obtain ⟨r, hr⟩ := hex
    unfold alookup at hr
    simp only [List.filter_cons]
    by_cases hes : e.1 = si
    · rw [if_neg (by simpa using hes)]
      rw [if_neg (show ¬ e.1 = pi_ from fun hep => hne (by rw [← hep]; exact hes))] at hr
      exact ih ⟨r, hr⟩
    · rw [if_pos (by simpa using hes)]
      simp only [List.map_cons]
      by_cases hep : e.1 = pi_
      · rw [if_pos hep]
        simp [alookup]
      · rw [if_neg hep]
        rw [if_neg hep] at hr
        unfold alookup
        rw [if_neg hep]
        exact ih ⟨r, hr⟩

theorem nodup_append_singleton {l : List ℕ} {n : ℕ} (h : l.Nodup) (hn : ¬ n ∈ l) :
    (l ++ [n]).Nodup := by
  simp [List.nodup_append, h, hn]

/-- Merging two black regions preserves the mark-fold invariant. -/
theorem fuseMerge_inv (C : Coord → ℤ) (target : List (ℕ × Region)) (N : ℕ) (p : Coord)
    (h : Grid) (pi_ si : ℕ) (pr sr : Region)
    (htar : numberedEntries h = target)
    (hnd : (h.regions.map Prod.fst).Nodup)
    (hbd : ∀ e ∈ h.regions, e.1 < N)
    (hnext : h.nextId = N)
    (hcells : h.cells = C)
    (hlp : alookup pi_ h.regions = some pr) (hls : alookup si h.regions = some sr)
    (hne : ¬ pi_ = si) (hpb : pr.state = BLACK) (hsb : sr.state = BLACK)
    (hj : (h.owner p = some pi_ ∧ p ∈ pr.coords) ∨ (h.owner p = some si ∧ p ∈ sr.coords)) :
    MarkFoldInv C target N p (h.fuseMerge pi_ pr si sr) := by
  have hBnotpos : ¬ (0 : ℤ) < BLACK := by unfold BLACK; omega
  have huniq : ∀ (k : ℕ) (rr : Region), alookup k h.regions = some rr →
      ∀ e ∈ h.regions, e.1 = k → e.2 = rr := by
    intro k rr hlk e he hk
    have h2 : alookup k h.regions = some e.2 := by
      subst hk
      exact alookup_eq_of_mem _ hnd e.1 e.2 he
    rw [hlk] at h2
    exact (Option.some_inj.mp h2).symm
  have hpval : ∀ e ∈ h.regions, e.1 = pi_ → ¬ 0 < e.2.state := by
    intro e he hk
    rw [huniq pi_ pr hlp e he hk, hpb]
    exact hBnotpos
  have hsval : ∀ e ∈ h.regions, e.1 = si → ¬ 0 < e.2.state := by
    intro e he hk
    rw [huniq si sr hls e he hk, hsb]
    exact hBnotpos
  simp only [Grid.fuseMerge, MarkFoldInv]
  refine ⟨?_, ?_, ?_, hnext, hcells, ?_⟩
  · unfold numberedEntries at htar ⊢
    dsimp only
    rw [numbered_filter_update h.regions pi_ si _ hpval hsval (by simpa [hpb] using hBnotpos)]
    exact htar
  · dsimp only
    rw [keys_map_update]
    exact hnd.sublist ((List.filter_sublist _).map Prod.fst)
  · dsimp only
    intro e he
    obtain ⟨e0, he0, heq⟩ := List.mem_map.mp he
    have he0r : e0 ∈ h.regions := List.mem_of_mem_filter he0
    have hkey : e.1 = e0.1 := by
      rw [← heq]
      split_ifs with hk
      · rw [hk]
      · rfl
    rw [hkey]
    exact hbd e0 he0r
  · refine ⟨pi_, Region.mk pr.state
      (sr.coords.foldl (fun acc q => sinsert q acc) pr.coords)
      (sr.unknowns.foldl (fun acc q => sinsert q acc) pr.unknowns), ?_, ?_, hpb, ?_⟩
    · dsimp only
      rcases hj with ⟨hop, hpc⟩ | ⟨hop, hpc⟩
      · split_ifs with hps
        · rfl
        · exact hop
      · rw [if_pos hpc]
    · dsimp only
      exact alookup_filter_update h.regions pi_ si _ hne ⟨pr, hlp⟩
    · dsimp only
      rcases hj with ⟨hop, hpc⟩ | ⟨hop, hpc⟩
      · exact (mem_foldl_sinsert p sr.coords pr.coords).mpr (Or.inl hpc)
      · exact (mem_foldl_sinsert p sr.coords pr.coords).mpr (Or.inr hpc)

/-- One fusion step of `mark`'s neighbour loop preserves the invariant. -/
theorem fuse_step_inv (C : Coord → ℤ) (target : List (ℕ × Region)) (N : ℕ) (p : Coord)
    (h : Grid) (inv : MarkFoldInv C target N p h) (o2 : Option ℕ) :
    MarkFoldInv C target N p (h.fuse_regions (h.owner p) o2) := by
  obtain ⟨htar, hnd, hbd, hnext, hcells, j, rj, hop, hlk, hrb, hpc⟩ := inv
  have hinv : MarkFoldInv C target N p h :=
    ⟨htar, hnd, hbd, hnext, hcells, j, rj, hop, hlk, hrb, hpc⟩
  rw [hop]
  cases o2 with
  | none => exact hinv
  | some i2 =>
    by_cases hij : j = i2
    · have hthis : h.fuse_regions (some j) (some i2) = h := by
        simp only [Grid.fuse_regions]
        rw [if_pos hij]
      rw [hthis]
      exact hinv
    · cases hlk2 : alookup i2 h.regions with
      | none =>
        have hthis : h.fuse_regions (some j) (some i2) = h := by
          simp only [Grid.fuse_regions]
          rw [if_neg hij, hlk, hlk2]
        rw [hthis]
        exact hinv
      | some r2 =>
        have hnn : ¬ (0 < rj.state ∧ 0 < r2.state) := by
          rw [hrb]
          unfold BLACK
          rintro ⟨h1, _⟩
          omega
        by_cases hr2b : r2.state = BLACK
        · have hred : h.fuse_regions (some j) (some i2) =
              if r2.size > rj.size then
                (if 0 < rj.state then h.fuseMerge j rj i2 r2 else h.fuseMerge i2 r2 j rj)
              else
                (if 0 < r2.state then h.fuseMerge i2 r2 j rj else h.fuseMerge j rj i2 r2) := by
            simp only [Grid.fuse_regions]
            rw [if_neg hij, hlk, hlk2]
            dsimp only
            rw [if_neg hnn, if_neg (not_not_intro (by rw [hrb, hr2b]))]
          rw [hred]
          have hrjnp : ¬ 0 < rj.state := by
            rw [hrb]
            unfold BLACK
            omega
          have hr2np : ¬ 0 < r2.state := by
            rw [hr2b]
            unfold BLACK
            omega
          split_ifs with hsz
          · exact fuseMerge_inv C target N p h i2 j r2 rj htar hnd hbd hnext hcells hlk2 hlk
              (fun hh => hij hh.symm) hr2b hrb (Or.inr ⟨hop, hpc⟩)
          · exact fuseMerge_inv C target N p h j i2 rj r2 htar hnd hbd hnext hcells hlk hlk2
              hij hrb hr2b (Or.inl ⟨hop, hpc⟩)
        · have hthis : h.fuse_regions (some j) (some i2) = h := by
            simp only [Grid.fuse_regions]
            rw [if_neg hij, hlk, hlk2]
            dsimp only
            rw [if_neg hnn, if_pos (fun hiff => hr2b ((Iff.of_eq (congrArg _ rfl)).mp (hiff.mp hrb)))]
          rw [hthis]
          exact hinv

/-- The whole neighbour-fusion fold of `mark` preserves the invariant. -/
theorem fold_fuse_inv (C : Coord → ℤ) (target : List (ℕ × Region)) (N : ℕ) (p : Coord)
    (nbs : List Coord) :
    ∀ h : Grid, MarkFoldInv C target N p h →
      MarkFoldInv C target N p
        (nbs.foldl (fun h2 nb => h2.fuse_regions (h2.owner p) (h2.owner nb)) h) := by
  induction nbs with
  | nil => exact fun h inv => inv
  | cons nb t ih =>
    intro h inv
    exact ih _ (fuse_step_inv C target N p h inv (h.owner nb))

/-- Unfolding lemma for `add_region`: the appended entry. -/
theorem add_region_regions (g : Grid) (x y : ℤ) :
    (g.add_region x y).regions = g.regions ++
      [(g.nextId, Region.mk (g.cells (x, y)) [(x, y)]
        (g.insert_valid_unknown_neighbors [] x y))] := rfl

/-- Marking an Unknown cell BLACK erases it from every region's liberties and
otherwise leaves the numbered entries untouched: the new singleton region is
black and fusion only merges black regions. -/
theorem mark_black_numbered (g : Grid) (x y : ℤ)
    (hcell : g.cells (x, y) = UNKNOWN)
    (hnd : (g.regions.map Prod.fst).Nodup)
    (hbound : ∀ e ∈ g.regions, e.1 < g.nextId) :
    numberedEntries (g.mark BLACK x y) =
      (numberedEntries g).map (fun e => (e.1, e.2.unk_erase x y)) ∧
    (g.mark BLACK x y).cells = (fun q => if q = (x, y) then BLACK else g.cells q) ∧
    ((g.mark BLACK x y).regions.map Prod.fst).Nodup ∧
    (∀ e ∈ (g.mark BLACK x y).regions, e.1 < (g.mark BLACK x y).nextId) := by
  have hBW : (BLACK : ℤ) = WHITE ∨ (BLACK : ℤ) = BLACK := Or.inr rfl
  unfold Grid.mark
  rw [if_pos hBW, if_pos hcell]
  dsimp only
  set g1 : Grid :=
    { g with
      cells := fun q => if q = (x, y) then BLACK else g.cells q,
      regions := g.regions.map (fun e => (e.1, e.2.unk_erase x y)) } with hg1
  set g2 := g1.add_region x y with hg2
  have hg2cells : g2.cells = fun q => if q = (x, y) then BLACK else g.cells q := rfl
  have hnewstate : g1.cells (x, y) = BLACK := by
    show (if ((x, y) : Coord) = (x, y) then BLACK else g.cells (x, y)) = BLACK
    rw [if_pos rfl]
  have hkeys1 : g1.regions.map Prod.fst = g.regions.map Prod.fst := keys_map_erase g.regions x y
  have hfresh : ∀ e ∈ g1.regions, ¬ e.1 = g.nextId := by
    intro e he heq
    obtain ⟨e0, he0, heq0⟩ := List.mem_map.mp he
    have : e0.1 < g.nextId := hbound e0 he0
    rw [← heq0] at heq
    simp only at heq
    omega
  have hn1 : g1.nextId = g.nextId := rfl
  have hregs2 : g2.regions = g1.regions ++
      [(g.nextId, Region.mk (g1.cells (x, y)) [(x, y)]
        (g1.insert_valid_unknown_neighbors [] x y))] := by
    rw [hg2, add_region_regions, hn1]
  have hinv : MarkFoldInv (fun q => if q = (x, y) then BLACK else g.cells q)
      ((numberedEntries g).map (fun e => (e.1, e.2.unk_erase x y))) (g.nextId + 1) (x, y) g2 := by
    refine ⟨?_, ?_, ?_, rfl, rfl, ?_⟩
    · unfold numberedEntries
      rw [hregs2, List.filter_append]
      have hsingle : ([((g.nextId : ℕ),
          Region.mk (g1.cells (x, y)) [(x, y)] (g1.insert_valid_unknown_neighbors [] x y))].filter
            (fun e => decide (0 < e.2.state))) = [] := by
        simp [hnewstate, BLACK]
      rw [hsingle, List.append_nil]
      exact numbered_filter_map_erase g.regions x y
    · rw [hregs2, List.map_append]
      apply nodup_append_singleton
      · rw [hkeys1]
        exact hnd
      · intro hmem
        rw [hkeys1] at hmem
        obtain ⟨e0, he0, heq0⟩ := List.mem_map.mp hmem
        have : e0.1 < g.nextId := hbound e0 he0
        omega
    · intro e he
      rw [hregs2] at he
      rcases List.mem_append.mp he with hel | her
      · obtain ⟨e0, he0, heq0⟩ := List.mem_map.mp hel
        have : e0.1 < g.nextId := hbound e0 he0
        rw [← heq0]
        simp only
        omega
      · rcases List.mem_cons.mp her with rfl | hnil
        · simp only
          omega
        · exact absurd hnil (List.not_mem_nil _)
    · refine ⟨g.nextId, Region.mk (g1.cells (x, y)) [(x, y)]
        (g1.insert_valid_unknown_neighbors [] x y), ?_, ?_, hnewstate, ?_⟩
      · show (if ((x, y) : Coord) = (x, y) then some g1.nextId else g1.owner (x, y)) = _
        rw [if_pos rfl, hn1]
      · rw [hregs2]
        exact alookup_append_fresh g1.regions g.nextId _ hfresh
      · exact List.mem_cons_self _ _
  obtain ⟨f1, f2, f3, f4, f5, _⟩ :=
    fold_fuse_inv (fun q => if q = (x, y) then BLACK else g.cells q)
      ((numberedEntries g).map (fun e => (e.1, e.2.unk_erase x y))) (g.nextId + 1) (x, y)
      (g2.validNeighbors x y) g2 hinv
  refine ⟨f1, f5, f2, ?_⟩
  intro e he
  rw [f4]
  exact f3 e he

/-- Removing liberties against the empty mark list is the identity. -/
theorem map_unkRemove_nil (l : List (ℕ × Region)) :
    l.map (fun e => ((e.1 : ℕ),
      Region.mk e.2.state e.2.coords
        (e.2.unknowns.filter (fun q => decide (¬ q ∈ ([] : List Coord)))))) = l := by
  induction l with
  | nil => rfl
  | cons e t ih =>
    rcases e with ⟨i, s, cs, us⟩
    simp only [List.map_cons, ih]
    congr 1
    simp

/-- Erasing one coordinate and then the rest of the list erases the whole
list. -/
theorem filter_erase_cons (us : List Coord) (p : Coord) (L : List Coord) :
    (serase (p.1, p.2) us).filter (fun q => decide (¬ q ∈ L)) =
      us.filter (fun q => decide (¬ q ∈ p :: L)) := by
  unfold serase
  rw [List.filter_filter]
  apply List.filter_congr
  intro q _
  by_cases hq1 : q = p <;> by_cases hq2 : q ∈ L <;>
    simp [hq1, hq2, List.mem_cons]

/-- Committing a duplicate-free list of BLACK marks on Unknown cells removes
exactly those cells from the numbered regions' liberties and changes nothing
else about the numbered entries. -/
theorem markList_black_numbered (L : List Coord) :
    ∀ g : Grid,
      (∀ p ∈ L, g.cells p = UNKNOWN) → L.Nodup →
      ((g.regions.map Prod.fst).Nodup) → (∀ e ∈ g.regions, e.1 < g.nextId) →
      numberedEntries (markList BLACK g L) =
        (numberedEntries g).map (fun e => ((e.1 : ℕ),
          Region.mk e.2.state e.2.coords
            (e.2.unknowns.filter (fun q => decide (¬ q ∈ L))))) := by
  induction L with
  | nil =>
    intro g _ _ _ _
    rw [map_unkRemove_nil]
    rfl
  | cons p L' ih =>
    intro g hunk hnodup hknd hbound
    obtain ⟨h1, h2, h3, h4⟩ := mark_black_numbered g p.1 p.2
      (by rw [Prod.mk.eta]; exact hunk p (List.mem_cons_self _ _)) hknd hbound
    have hstep : markList BLACK g (p :: L') = markList BLACK (g.mark BLACK p.1 p.2) L' := rfl
    rw [hstep]
    rw [ih (g.mark BLACK p.1 p.2) ?hunk (List.nodup_cons.mp hnodup).2 h3 h4]
    case hunk =>
      intro q hq
      rw [h2]
      dsimp only
      have hqp : ¬ q = p := by
        intro he
        subst he
        exact (List.nodup_cons.mp hnodup).1 hq
      have hqp2 : ¬ q = (p.1, p.2) := by
        rw [Prod.mk.eta]
        exact hqp
      rw [if_neg hqp2]
      exact hunk q (List.mem_cons_of_mem _ hq)
    rw [h1, List.map_map]
    apply List.map_congr_left
    intro e _
    simp only [Function.comp_apply, Region.unk_erase]
    congr 1
    congr 1
    exact filter_erase_cons e.2.unknowns p L'

/-- C2 (corrected): rule R1 (`analyze_complete_islands`) is idempotent.  On a
grid whose region table has duplicate-free keys below `nextId` and whose
recorded liberties are genuinely Unknown cells, a second consecutive call of
`analyze_complete_islands` proposes no marks and reports `false`: the first
call turned every liberty of every full numbered island black, erasing it
from that island's liberty list.  The spec's claim as stated — that this
holds for every deduction rule — fails for rule R2, see
`single_liberties_not_idempotent`. -/
theorem complete_islands_idempotent (g : Grid)
    (hknd : (g.regions.map Prod.fst).Nodup)
    (hbound : ∀ e ∈ g.regions, e.1 < g.nextId)
    (hunk : ∀ e ∈ g.regions, ∀ q ∈ e.2.unknowns, g.cells q = UNKNOWN) :
    ((g.analyze_complete_islands).2.analyze_complete_islands).1 = false := by
  by_cases hM : g.completeIslandMarks = []
  · have h1 : g.analyze_complete_islands = (false, g) := by
      unfold Grid.analyze_complete_islands Grid.process
      rw [if_pos ⟨hM, rfl⟩]
    rw [h1]
    show (g.analyze_complete_islands).1 = false
    unfold Grid.analyze_complete_islands Grid.process
    rw [if_pos ⟨hM, rfl⟩]
  · set M := g.completeIslandMarks with hMdef
    have h1 : g.analyze_complete_islands = (true, markList BLACK g M) := by
      unfold Grid.analyze_complete_islands Grid.process
      rw [if_neg (fun hc => hM hc.1)]
      rfl
    rw [h1]
    set g1 := markList BLACK g M with hg1
    show (g1.analyze_complete_islands).1 = false
    have hMnd : M.Nodup :=
      nodup_of_pairwise_coordLt
        (pairwise_foldl_completeIslandStep g.regions [] List.Pairwise.nil)
    have hunkM : ∀ p ∈ M, g.cells p = UNKNOWN := by
      intro p hp
      rw [hMdef] at hp
      simp only [Grid.completeIslandMarks] at hp
      rw [mem_foldl_completeIslandStep] at hp
      rcases hp with hp | ⟨e, he, _, _, h3⟩
      · exact absurd hp (List.not_mem_nil _)
      · exact hunk e he p h3
    have hNE : numberedEntries g1 =
        (numberedEntries g).map (fun e => ((e.1 : ℕ),
          Region.mk e.2.state e.2.coords
            (e.2.unknowns.filter (fun q => decide (¬ q ∈ M))))) :=
      markList_black_numbered M g hunkM hMnd hknd hbound
    have hmarks : g1.completeIslandMarks = [] := by
      rw [List.eq_nil_iff_forall_not_mem]
      intro p hp
      simp only [Grid.completeIslandMarks] at hp
      rw [mem_foldl_completeIslandStep] at hp
      rcases hp with hp | ⟨e, he, h1s, h2s, h3s⟩
      · exact absurd hp (List.not_mem_nil _)
      · have he1 : e ∈ numberedEntries g1 := by
          unfold numberedEntries
          rw [List.mem_filter]
          exact ⟨he, by simpa using h1s⟩
        rw [hNE] at he1
        obtain ⟨e0, he0, heq0⟩ := List.mem_map.mp he1
        have he0g : e0 ∈ g.regions := (List.mem_filter.mp he0).1
        have he0s : 0 < e0.2.state := by
          have := (List.mem_filter.mp he0).2
          simpa using this
        have hstate : e.2.state = e0.2.state := by
          rw [← heq0]
        have hsize : e.2.size = e0.2.size := by
          rw [← heq0]
          rfl
        have hunks : e.2.unknowns =
            e0.2.unknowns.filter (fun q => decide (¬ q ∈ M)) := by
          rw [← heq0]
        have hpfil := h3s
        rw [hunks, List.mem_filter] at hpfil
        have hpM : p ∈ M := by
          rw [hMdef]
          simp only [Grid.completeIslandMarks]
          rw [mem_foldl_completeIslandStep]
          exact Or.inr ⟨e0, he0g, he0s, by rw [← hsize, ← hstate]; exact h2s, hpfil.1⟩
        have hnot := hpfil.2
        simp only [decide_eq_true_eq] at hnot
        exact hnot hpM
    unfold Grid.analyze_complete_islands Grid.process
    rw [if_pos ⟨hmarks, rfl⟩]

/-- Witness for `complete_islands_idempotent` on the 2×1 puzzle `"1 "`, whose
first R1 call marks the lone liberty black. -/
theorem complete_islands_idempotent_witness :
    (((gR1W.regions.map Prod.fst).Nodup) ∧
      (∀ e ∈ gR1W.regions, e.1 < gR1W.nextId) ∧
      (∀ e ∈ gR1W.regions, ∀ q ∈ e.2.unknowns, gR1W.cells q = UNKNOWN)) ∧
    ((gR1W.analyze_complete_islands).2.analyze_complete_islands).1 = false :=
  ⟨⟨by decide, by decide, by decide⟩,
    complete_islands_idempotent gR1W (by decide) (by decide) (by decide)⟩

/-- Counterexample to C2 as stated: rule R2 (`analyze_single_liberties`) is
not idempotent.  On the 4×1 corridor `"   1"` after R1 has run, R2 reports
progress twice in a row — each call extends the black region by one cell and
leaves it with a fresh single liberty. -/
theorem single_liberties_not_idempotent :
    (gLadder1.analyze_single_liberties).1 = true ∧
      ((gLadder1.analyze_single_liberties).2.analyze_single_liberties).1 = true := by
  decide

/-! ## The construction-error characterisation -/

/-- On good input the tokenizer succeeds and yields the token values. -/
theorem parseTokensGo_good (l : List Char) :
    ∀ pending : Option ℤ, (∀ c ∈ l, goodChar c) →
      parseTokensGo pending l = some (tokenValuesGo pending l) := by
  induction l with
  | nil =>
    intro pending _
    rfl
  | cons c cs ih =>
    intro pending hgood
    have hc : goodChar c := hgood c (List.mem_cons_self _ _)
    have hcs : ∀ d ∈ cs, goodChar d := fun d hd => hgood d (List.mem_cons_of_mem _ hd)
    simp only [parseTokensGo, tokenValuesGo]
    by_cases hd : c.isDigit = true
    · rw [if_pos hd, if_pos hd]
      exact ih _ hcs
    · rw [if_neg hd, if_neg hd]
      by_cases hsp : c = ' '
      · rw [if_pos hsp, if_pos hsp, ih none hcs]
        rfl
      · rw [if_neg hsp, if_neg hsp]
        have hnl : c = '\n' := by
          rcases hc with hc | hc | hc
          · exact absurd hc hd
          · exact absurd hc hsp
          · exact hc
        rw [if_pos hnl, ih none hcs]

/-- A character outside digit/space/newline makes the tokenizer fail. -/
theorem parseTokensGo_bad (l : List Char) :
    ∀ pending : Option ℤ, (∃ c ∈ l, ¬ goodChar c) →
      parseTokensGo pending l = none := by
  induction l with
  | nil =>
    rintro pending ⟨c, hc, _⟩
    exact absurd hc (List.not_mem_nil _)
  | cons c cs ih =>
    rintro pending ⟨d, hd, hbad⟩
    simp only [parseTokensGo]
    rcases List.mem_cons.mp hd with rfl | hdt
    · have h1 : ¬ d.isDigit = true := fun h => hbad (Or.inl h)
      have h2 : ¬ d = ' ' := fun h => hbad (Or.inr (Or.inl h))
      have h3 : ¬ d = '\n' := fun h => hbad (Or.inr (Or.inr h))
      rw [if_neg h1, if_neg h2, if_neg h3]
    · by_cases h1 : c.isDigit = true
      · rw [if_pos h1]
        exact ih _ ⟨d, hdt, hbad⟩
      · rw [if_neg h1]
        have hrec : parseTokensGo none cs = none := ih none ⟨d, hdt, hbad⟩
        by_cases h2 : c = ' '
        · rw [if_pos h2, hrec]
          rfl
        · rw [if_neg h2]
          by_cases h3 : c = '\n'
          · rw [if_pos h3, hrec]
          · rw [if_neg h3]

/-- Finishing a column: the cells processed through the whole column `x` are
the cells processed before column `x + 1`. -/
theorem cellsUpTo_column_shift (v : List ℤ) (w h x : ℤ) :
    cellsUpTo v w h x h = cellsUpTo v w h (x + 1) 0 := by
  funext q
  simp only [cellsUpTo]
  refine if_congr ?_ rfl rfl
  omega

/-- Before any column is processed every cell is Unknown. -/
theorem cellsUpTo_start (v : List ℤ) (w h : ℤ) :
    (fun _ : Coord => UNKNOWN) = cellsUpTo v w h 0 0 := by
  funext q
  simp only [cellsUpTo]
  rw [if_neg (by omega)]

/-- Characterisation of the constructor's inner clue loop: it fails exactly
when rows `y` and beyond of column `x` contain the lower cell of a vertically
adjacent pair of positive tokens, and on success it has placed exactly the
positive tokens of column `x`. -/
theorem makeLoopY_char (v : List ℤ) (w h x : ℤ) (hx0 : 0 ≤ x) (hxw : x < w) (k : ℕ) :
    ∀ (y : ℤ) (g : Grid), g.width = w → g.height = h →
      g.cells = cellsUpTo v w h x y → 0 ≤ y → y + k = h →
      ((isErr (Grid.makeLoopY v x k y g) = true ↔
        ∃ b : ℤ, y ≤ b ∧ b < h ∧ 1 ≤ b ∧
          0 < vget v w x (b - 1) ∧ 0 < vget v w x b) ∧
       ∀ g1 : Grid, Grid.makeLoopY v x k y g = .ok g1 →
         g1.width = w ∧ g1.height = h ∧ g1.cells = cellsUpTo v w h (x + 1) 0) := by
  induction k with
  | zero =>
    intro y g hw hh hcells hy hk
    refine ⟨?_, ?_⟩
    · constructor
      · intro hfalse
        have h0 : Grid.makeLoopY v x 0 y g = .ok g := rfl
        rw [h0] at hfalse
        exact (Bool.false_ne_true hfalse).elim
      · rintro ⟨b, hb1, hb2, _⟩
        omega
    · intro g1 hg1
      have h0 : (Except.ok g : Except String Grid) = .ok g1 := hg1
      injection h0 with h0
      subst h0
      refine ⟨hw, hh, ?_⟩
      have hyh : y = h := by omega
      rw [hcells, hyh]
      exact cellsUpTo_column_shift v w h x
  | succ k ih =>
    intro y g hw hh hcells hy hk
    have hyh : y < h := by omega
    have hcy : g.cells (x, y - 1) =
        (if 0 ≤ x ∧ x < w ∧ 0 ≤ y - 1 ∧ y - 1 < h ∧
            (x < x ∨ (x = x ∧ y - 1 < y)) ∧ 0 < vget v w x (y - 1)
         then vget v w x (y - 1) else UNKNOWN) := by
      rw [hcells]
      rfl
    have hvalid_iff : (g.valid x (y - 1) ∧ 0 < g.cells (x, y - 1)) ↔
        (1 ≤ y ∧ 0 < vget v w x (y - 1)) := by
      rw [hcy]
      constructor
      · rintro ⟨⟨_, _, hv1, hv2⟩, hcc⟩
        by_cases hcond : 0 ≤ x ∧ x < w ∧ 0 ≤ y - 1 ∧ y - 1 < h ∧
            (x < x ∨ (x = x ∧ y - 1 < y)) ∧ 0 < vget v w x (y - 1)
        · exact ⟨by omega, hcond.2.2.2.2.2⟩
        · rw [if_neg hcond] at hcc
          exact absurd hcc (by decide)
      · rintro ⟨hv1, hv2⟩
        refine ⟨⟨by omega, by omega, by omega, by omega⟩, ?_⟩
        rw [if_pos ⟨hx0, hxw, by omega, by omega, Or.inr ⟨rfl, by omega⟩, hv2⟩]
        exact hv2
    by_cases hn : 0 < vget v w x y
    · by_cases hadj : 1 ≤ y ∧ 0 < vget v w x (y - 1)
      · have hres : Grid.makeLoopY v x (k + 1) y g =
            .error "s contains vertically adjacent numbers" := by
          simp only [Grid.makeLoopY, hw]
          rw [if_pos hn, if_pos (hvalid_iff.mpr hadj)]
        refine ⟨?_, ?_⟩
        · rw [hres]
          constructor
          · intro _
            exact ⟨y, le_refl y, hyh, hadj.1, hadj.2, hn⟩
          · intro _
            rfl
        · intro g1 hg1
          rw [hres] at hg1
          exact Except.noConfusion hg1
      · have hres : Grid.makeLoopY v x (k + 1) y g =
            Grid.makeLoopY v x k (y + 1) (g.placeClue (vget v w x y) x y) := by
          simp only [Grid.makeLoopY, hw]
          rw [if_pos hn, if_neg (fun hcc => hadj (hvalid_iff.mp hcc))]
        have hcells2 : (g.placeClue (vget v w x y) x y).cells =
            cellsUpTo v w h x (y + 1) := by
          show (fun q => if q = (x, y) then vget v w x y else g.cells q) =
            cellsUpTo v w h x (y + 1)
          funext q
          show (if q = (x, y) then vget v w x y else g.cells q) =
            cellsUpTo v w h x (y + 1) q
          by_cases hq : q = (x, y)
          · subst hq
            rw [if_pos rfl]
            show vget v w x y = if 0 ≤ x ∧ x < w ∧ 0 ≤ y ∧ y < h ∧
                (x < x ∨ (x = x ∧ y < y + 1)) ∧ 0 < vget v w x y
              then vget v w x y else UNKNOWN
            rw [if_pos ⟨hx0, hxw, hy, hyh, Or.inr ⟨rfl, by omega⟩, hn⟩]
          · rw [if_neg hq]
            have hcomp : ¬ (q.1 = x ∧ q.2 = y) := fun hc => hq (Prod.ext hc.1 hc.2)
            have hgq : g.cells q = cellsUpTo v w h x y q := by rw [hcells]
            rw [hgq]
            simp only [cellsUpTo]
            refine if_congr ?_ rfl rfl
            omega
        obtain ⟨ih1, ih2⟩ := ih (y + 1) (g.placeClue (vget v w x y) x y)
          hw hh hcells2 (by omega) (by omega)
        refine ⟨?_, ?_⟩
        · rw [hres, ih1]
          constructor
          · rintro ⟨b, hb1, hb2, hb3, hb4, hb5⟩
            exact ⟨b, by omega, hb2, hb3, hb4, hb5⟩
          · rintro ⟨b, hb1, hb2, hb3, hb4, hb5⟩
            by_cases hby : b = y
            · subst hby
              exact absurd ⟨hb3, hb4⟩ hadj
            · exact ⟨b, by omega, hb2, hb3, hb4, hb5⟩
        · intro g1 hg1
          rw [hres] at hg1
          exact ih2 g1 hg1
    · have hres : Grid.makeLoopY v x (k + 1) y g =
          Grid.makeLoopY v x k (y + 1) g := by
        simp only [Grid.makeLoopY, hw]
        rw [if_neg hn]
      have hcells2 : g.cells = cellsUpTo v w h x (y + 1) := by
        rw [hcells]
        funext q
        simp only [cellsUpTo]
        by_cases hq : q.1 = x ∧ q.2 = y
        · obtain ⟨hq1, hq2⟩ := hq
          rw [hq1, hq2, if_neg (by omega), if_neg (by omega)]
        · refine if_congr ?_ rfl rfl
          omega
      obtain ⟨ih1, ih2⟩ := ih (y + 1) g hw hh hcells2 (by omega) (by omega)
      refine ⟨?_, ?_⟩
      · rw [hres, ih1]
        constructor
        · rintro ⟨b, hb1, hb2, hb3, hb4, hb5⟩
          exact ⟨b, by omega, hb2, hb3, hb4, hb5⟩
        · rintro ⟨b, hb1, hb2, hb3, hb4, hb5⟩
          by_cases hby : b = y
          · subst hby
            exact absurd hb5 hn
          · exact ⟨b, by omega, hb2, hb3, hb4, hb5⟩
      · intro g1 hg1
        rw [hres] at hg1
        exact ih2 g1 hg1

/-- Characterisation of the constructor's outer clue loop: it fails exactly
when columns `x` and beyond contain a vertically adjacent pair of positive
tokens. -/
theorem makeLoopX_char (v : List ℤ) (w h : ℤ) (hh0 : 0 < h) (j : ℕ) :
    ∀ (x : ℤ) (g : Grid), g.width = w → g.height = h →
      g.cells = cellsUpTo v w h x 0 → 0 ≤ x → x + j = w →
      (isErr (Grid.makeLoopX v j x g) = true ↔
        ∃ a b : ℤ, x ≤ a ∧ a < w ∧ 1 ≤ b ∧ b < h ∧
          0 < vget v w a (b - 1) ∧ 0 < vget v w a b) := by
  induction j with
  | zero =>
    intro x g hw hh hcells hx0 hxj
    have h0 : Grid.makeLoopX v 0 x g = .ok g := rfl
    rw [h0]
    constructor
    · intro hfalse
      exact (Bool.false_ne_true hfalse).elim
    · rintro ⟨a, b, ha1, ha2, _⟩
      omega
  | succ j ihx =>
    intro x g hw hh hcells hx0 hxj
    have hxw : x < w := by omega
    obtain ⟨y1, y2⟩ := makeLoopY_char v w h x hx0 hxw h.toNat 0 g hw hh hcells le_rfl (by omega)
    have hstep : Grid.makeLoopX v (j + 1) x g =
        match Grid.makeLoopY v x h.toNat 0 g with
        | .error e => .error e
        | .ok g1 => Grid.makeLoopX v j (x + 1) g1 := by
      simp only [Grid.makeLoopX]
      rw [hh]
    rcases hY : Grid.makeLoopY v x h.toNat 0 g with e | g1
    · have hres : Grid.makeLoopX v (j + 1) x g = .error e := by
        rw [hstep, hY]
      have hEx := y1.mp (by rw [hY]; rfl)
      rw [hres]
      constructor
      · intro _
        obtain ⟨b, hb0, hb1, hb2, hb3, hb4⟩ := hEx
        exact ⟨x, b, le_rfl, hxw, hb2, hb1, hb3, hb4⟩
      · intro _
        rfl
    · obtain ⟨hw1, hh1, hc1⟩ := y2 g1 hY
      have hres : Grid.makeLoopX v (j + 1) x g = Grid.makeLoopX v j (x + 1) g1 := by
        rw [hstep, hY]
      rw [hres, ihx (x + 1) g1 hw1 hh1 hc1 (by omega) (by omega)]
      have hnone : ∀ b : ℤ, ¬ (0 ≤ b ∧ b < h ∧ 1 ≤ b ∧
          0 < vget v w x (b - 1) ∧ 0 < vget v w x b) := by
        intro b hb
        have habs : isErr (Grid.makeLoopY v x h.toNat 0 g) = true :=
          y1.mpr ⟨b, hb.1, hb.2.1, hb.2.2.1, hb.2.2.2.1, hb.2.2.2.2⟩
        rw [hY] at habs
        exact Bool.false_ne_true habs
      constructor
      · rintro ⟨a, b, ha1, ha2, hb1, hb2, h3, h4⟩
        exact ⟨a, b, by omega, ha2, hb1, hb2, h3, h4⟩
      · rintro ⟨a, b, ha1, ha2, hb1, hb2, h3, h4⟩
        by_cases hax : a = x
        · subst hax
          exact absurd ⟨by omega, hb2, hb1, h3, h4⟩ (hnone b)
        · exact ⟨a, b, by omega, ha2, hb1, hb2, h3, h4⟩

/-- C9: construction fails — `Grid::Grid` throws, modelled as `Except.error`,
and no solver is built — exactly when the width or height is below 1, the
input contains a character other than digit/space/newline, the
numbers-and-spaces count differs from width·height, or two positive numbers
are vertically adjacent. -/
theorem make_error_characterization (w h : ℤ) (s : List Char) :
    isErr (Grid.make w h s) = true ↔ makeFailureCondition w h s := by
  by_cases hw : w < 1
  · have hres : isErr (Grid.make w h s) = true := by
      unfold Grid.make
      rw [if_pos hw]
      rfl
    rw [hres]
    simp only [makeFailureCondition]
    constructor
    · intro _
      exact Or.inl hw
    · intro _
      trivial
  · by_cases hh : h < 1
    · have hres : isErr (Grid.make w h s) = true := by
        unfold Grid.make
        rw [if_neg hw, if_pos hh]
        rfl
      rw [hres]
      simp only [makeFailureCondition]
      constructor
      · intro _
        exact Or.inr (Or.inl hh)
      · intro _
        trivial
    · by_cases hgood : ∀ c ∈ s, goodChar c
      · have hp : parseTokens s = some (tokenValues s) := parseTokensGo_good s none hgood
        by_cases hlen : ¬ ((tokenValues s).length : ℤ) = w * h
        · have hres : Grid.make w h s =
              .error "s must contain width times height numbers and spaces" := by
            unfold Grid.make
            rw [if_neg hw, if_neg hh, hp]
            exact if_pos hlen
          rw [hres]
          simp only [makeFailureCondition]
          constructor
          · intro _
            exact Or.inr (Or.inr (Or.inr (Or.inl hlen)))
          · intro _
            trivial
        · have hres : Grid.make w h s = Grid.makeLoopX (tokenValues s) w.toNat 0
              { width := w, height := h, total_black := w * h,
                cells := fun _ => UNKNOWN, owner := fun _ => none,
                regions := [], sitrep := KEEP_GOING, nextId := 0 } := by
            unfold Grid.make
            rw [if_neg hw, if_neg hh, hp]
            exact if_neg hlen
          rw [hres]
          rw [makeLoopX_char (tokenValues s) w h (by omega) w.toNat 0 _ rfl rfl
            (cellsUpTo_start (tokenValues s) w h) le_rfl (by omega)]
          simp only [makeFailureCondition, vertAdjacentNumbers]
          constructor
          · rintro ⟨a, b, h1, h2, h3, h4, h5, h6⟩
            refine Or.inr (Or.inr (Or.inr (Or.inr ⟨(a, b), ?_, ?_, ?_, ?_⟩)))
            · rw [mem_colMajor]
              exact ⟨h1, h2, by omega, h4⟩
            · exact h3
            · exact h5
            · exact h6
          · rintro (hc | hc | hc | hc | hc)
            · omega
            · omega
            · obtain ⟨c, hcs, hbad⟩ := hc
              exact absurd (hgood c hcs) hbad
            · exact absurd hc hlen
            · obtain ⟨p, hpmem, hp1, hp2, hp3⟩ := hc
              rw [mem_colMajor] at hpmem
              exact ⟨p.1, p.2, hpmem.1, hpmem.2.1, hp1, hpmem.2.2.2, hp2, hp3⟩
      · have hbad : ∃ c ∈ s, ¬ goodChar c := by
          push_neg at hgood
          exact hgood
        have hp : parseTokens s = none := parseTokensGo_bad s none hbad
        have hres : isErr (Grid.make w h s) = true := by
          unfold Grid.make
          rw [if_neg hw, if_neg hh, hp]
          rfl
        rw [hres]
        simp only [makeFailureCondition]
        constructor
        · intro _
          exact Or.inr (Or.inr (Or.inl hbad))
        · intro _
          trivial

end Nurikabe
